import Mathlib

/-!
# ThunderDB: node directory, local key store and block encoding

A shallow embedding of `crypto/kms/pubkeystore.go` and
`crypto/kms/localkeystore.go`, with the bbolt store the directory sits on
modelled as named buckets of key/value pairs, and of the block encoding
exercised by `blockproducer/block_test.go`.

Conventions.
* A Go `error` result is an `Option Err` (`none` is `nil`).
* A Go pointer is an `Option` (`none` is `nil`).
* A call that dereferences a nil pointer ends in `Go.panic`.
* Functions and types that live outside the embedded files (the hash and key
  packages, the msgpack codec, `bolt.Open`) are parameters, collected in `Ext`.
-/

namespace ThunderDB

/-! ## Basic types -/

/-- Go byte slices (`[]byte`). -/
abbrev Bytes := List UInt8

/-- Error values. The first five are declared in `pubkeystore.go`, `ErrNilField`
in `localkeystore.go`; the `bolt*` ones are the errors bbolt documents for the
calls the directory makes; `other` is an error value made by a collaborator
outside the embedded files (codec, `bolt.Open`), which is none of the values
above. -/
inductive Err where
  | ErrBucketNotInitialized
  | ErrNilNode
  | ErrKeyNotFound
  | ErrNotValidNodeID
  | ErrNodeIDKeyNonceNotMatch
  | ErrNilField
  | boltKeyRequired
  | boltKeyTooLarge
  | boltValueTooLarge
  | boltBucketNotFound
  | boltBucketNameRequired
  | other (msg : String)
  deriving DecidableEq, Repr

/-- Outcome of a Go call: it returns, or it panics (nil dereference). -/
inductive Go (α : Type) where
  | ret (a : α)
  | panic
  deriving DecidableEq, Repr

/-- A value or an error, for calls that return `(value, error)` with exactly one
of the two set. -/
inductive Res (α : Type) where
  | ok (a : α)
  | error (e : Err)
  deriving DecidableEq, Repr

/-- The type `mine.Uint256`: four `uint64` words (see the `BPNonce` literal). -/
structure Uint256 where
  A : Nat
  B : Nat
  C : Nat
  D : Nat
  deriving DecidableEq, Repr

/-- The type `hash.Hash`, a fixed-width digest compared byte by byte. -/
structure Hash where
  bytes : Bytes
  deriving DecidableEq, Repr

/-- The type `asymmetric.PublicKey`. It is declared outside the embedded files
and used only through `Serialize` and pointer comparison with nil, so it is
kept opaque: a key is identified by a code. -/
structure PublicKey where
  code : Nat
  deriving DecidableEq, Repr

/-- The type `asymmetric.PrivateKey`, opaque like `PublicKey`. -/
structure PrivateKey where
  code : Nat
  deriving DecidableEq, Repr

/-- The type `proto.NodeID`, a Go string. -/
abbrev NodeID := String

/-- The type `proto.Node`, with the fields `SetPublicKey` fills in. -/
structure Node where
  ID : NodeID
  Addr : String
  PublicKey : Option PublicKey
  Nonce : Uint256
  deriving DecidableEq, Repr

/-- Collaborators of `pubkeystore.go` that are not part of the embedded files. -/
structure Ext where
  /-- The method `(*asymmetric.PublicKey).Serialize`. -/
  Serialize : PublicKey → Bytes
  /-- The function `mine.HashBlock`. -/
  HashBlock : Bytes → Uint256 → Hash
  /-- The function `hash.NewHashFromStr`; `none` stands for a non-nil error. -/
  NewHashFromStr : String → Option Hash
  /-- Msgpack encoding of a node value (`codec.NewEncoder(..).Encode`): the
  bytes written, or the message of the codec error. -/
  Encode : Node → Except String Bytes
  /-- Msgpack decoding into a fresh `proto.NewNode()`: the node as it is after
  the call, and the message of the codec error if there is one. -/
  Decode : Bytes → Node × Option String

/-- The codec decodes what it encoded. -/
def Ext.RoundTrip (x : Ext) : Prop :=
  ∀ (n : Node) (b : Bytes), x.Encode n = .ok b → x.Decode b = (n, none)

/-! ## The bbolt store -/

/-- Lookup of the first pair with the given key. -/
def kvGet {β : Type} : List (String × β) → String → Option β
  | [], _ => none
  | (k', v') :: rest, k => if k = k' then some v' else kvGet rest k

/-- Insert or replace, keeping keys in ascending order as bbolt does. -/
def kvPut {β : Type} : List (String × β) → String → β → List (String × β)
  | [], k, v => [(k, v)]
  | (k', v') :: rest, k, v =>
    if k = k' then (k, v) :: rest
    else if k < k' then (k, v) :: (k', v') :: rest
    else (k', v') :: kvPut rest k v

/-- Removal of every pair with the given key. -/
def kvDel {β : Type} : List (String × β) → String → List (String × β)
  | [], _ => []
  | (k', v') :: rest, k => if k = k' then kvDel rest k else (k', v') :: kvDel rest k

/-- A bbolt bucket: key/value pairs. -/
abbrev Bucket := List (String × Bytes)

/-- A bbolt database: named buckets. -/
abbrev DB := List (String × Bucket)

/-- The constant `bolt.MaxKeySize`. -/
def MaxKeySize : Nat := 32768

/-- The constant `bolt.MaxValueSize`. -/
def MaxValueSize : Nat := 2 ^ 31 - 2

/-- The call `tx.Bucket(name)`: nil for a nil name or an absent bucket. -/
def txBucket (db : DB) (name : Option String) : Option Bucket :=
  match name with
  | none => none
  | some n => kvGet db n

/-- The call `tx.CreateBucketIfNotExists(name)`. -/
def txCreateBucketIfNotExists (db : DB) (name : String) : Res DB :=
  if name.utf8ByteSize = 0 then .error .boltBucketNameRequired
  else match kvGet db name with
    | some _ => .ok db
    | none => .ok (kvPut db name [])

/-- The call `tx.DeleteBucket(name)`. -/
def txDeleteBucket (db : DB) (name : String) : Res DB :=
  match kvGet db name with
  | none => .error .boltBucketNotFound
  | some _ => .ok (kvDel db name)

/-- The call `bucket.Put(key, value)`. -/
def bucketPut (b : Bucket) (key : String) (value : Bytes) : Res Bucket :=
  if key.utf8ByteSize = 0 then .error .boltKeyRequired
  else if key.utf8ByteSize > MaxKeySize then .error .boltKeyTooLarge
  else if value.length > MaxValueSize then .error .boltValueTooLarge
  else .ok (kvPut b key value)

/-- The call `bucket.Delete(key)`: no error when the key is absent. -/
def bucketDelete (b : Bucket) (key : String) : Res Bucket :=
  .ok (kvDel b key)

/-! ## `pubkeystore.go` -/

/-- The constant `kmsBucketName`. -/
def kmsBucketName : String := "kms"

/-- The struct `PublicKeyStore`: the database behind the handle `db`, and
the bucket name (`none` is the nil slice). -/
structure PublicKeyStore where
  db : DB
  bucket : Option String
  deriving DecidableEq, Repr

/-- Package variables of `pubkeystore.go`: the singleton `pks` and the
`Unittest` flag. -/
structure World where
  pks : Option PublicKeyStore
  Unittest : Bool
  deriving DecidableEq, Repr

/-- The function `setNode`: encode, then put under `nodeInfo.ID` in one update
transaction; a transaction whose body fails leaves the database as it was. -/
def setNode (x : Ext) (w : World) (nodeInfo : Node) : Go (Option Err × World) :=
  match x.Encode nodeInfo with
  | .error msg => .ret (some (.other msg), w)
  | .ok nodeBuf =>
    match w.pks with
    | none => .panic
    | some p =>
      match p.bucket, txBucket p.db p.bucket with
      | some name, some bucket =>
        match bucketPut bucket nodeInfo.ID nodeBuf with
        | .error e => .ret (some e, w)
        | .ok bucket' =>
          .ret (none, { w with pks := some { p with db := kvPut p.db name bucket' } })
      | _, _ => .ret (some .ErrBucketNotInitialized, w)

/-- The function `SetNode`; `IsEqual` on digests is equality of their bytes. -/
def SetNode (x : Ext) (w : World) (nodeInfo : Option Node) : Go (Option Err × World) :=
  match nodeInfo with
  | none => .ret (some .ErrNilNode, w)
  | some n =>
    if !w.Unittest then
      match n.PublicKey with
      | none => .ret (some .ErrNilNode, w)
      | some pk =>
        let keyHash := x.HashBlock (x.Serialize pk) n.Nonce
        match x.NewHashFromStr n.ID with
        | none => .ret (some .ErrNotValidNodeID, w)
        | some idHash =>
          if !(keyHash = idHash) then .ret (some .ErrNodeIDKeyNonceNotMatch, w)
          else setNode x w n
    else setNode x w n

/-- The function `SetPublicKey`. -/
def SetPublicKey (x : Ext) (w : World) (id : NodeID) (nonce : Uint256)
    (publicKey : Option PublicKey) : Go (Option Err × World) :=
  SetNode x w (some { ID := id, Addr := "", PublicKey := publicKey, Nonce := nonce })

/-- The function `GetNodeInfo`. -/
def GetNodeInfo (x : Ext) (w : World) (id : NodeID) : Go (Option Node × Option Err) :=
  match w.pks with
  | none => .panic
  | some p =>
    match txBucket p.db p.bucket with
    | none => .ret (none, some .ErrBucketNotInitialized)
    | some bucket =>
      match kvGet bucket id with
      | none => .ret (none, some .ErrKeyNotFound)
      | some byteVal =>
        let r := x.Decode byteVal
        .ret (some r.1, r.2.map Err.other)

/-- The function `GetPublicKey`. -/
def GetPublicKey (x : Ext) (w : World) (id : NodeID) : Go (Option PublicKey × Option Err) :=
  match GetNodeInfo x w id with
  | .panic => .panic
  | .ret (node, err) =>
    match err, node with
    | none, some n => .ret (n.PublicKey, none)
    | none, none => .panic
    | some e, _ => .ret (none, some e)

/-- The function `GetAllNodeID`: the keys of the bucket in store order. -/
def GetAllNodeID (w : World) : Go (List NodeID × Option Err) :=
  match w.pks with
  | none => .panic
  | some p =>
    match txBucket p.db p.bucket with
    | none => .ret ([], some .ErrBucketNotInitialized)
    | some bucket => .ret (bucket.map Prod.fst, none)

/-- The function `DelNode`. -/
def DelNode (w : World) (id : NodeID) : Go (Option Err × World) :=
  match w.pks with
  | none => .panic
  | some p =>
    match p.bucket, txBucket p.db p.bucket with
    | some name, some bucket =>
      match bucketDelete bucket id with
      | .error e => .ret (some e, w)
      | .ok bucket' =>
        .ret (none, { w with pks := some { p with db := kvPut p.db name bucket' } })
    | _, _ => .ret (some .ErrBucketNotInitialized, w)

/-- The function `removeBucket`. -/
def removeBucket (w : World) : Go (Option Err × World) :=
  match w.pks with
  | none => .panic
  | some p =>
    match txDeleteBucket p.db kmsBucketName with
    | .error e => .ret (some e, w)
    | .ok db' => .ret (none, { w with pks := some { db := db', bucket := none } })

/-- The function `ResetBucket`: the result of `removeBucket` is dropped. -/
def ResetBucket (w : World) : Go (Option Err × World) :=
  match removeBucket w with
  | .panic => .panic
  | .ret (_, w1) =>
    match w1.pks with
    | none => .panic
    | some p =>
      match txCreateBucketIfNotExists p.db kmsBucketName with
      | .error e =>
        .ret (some e, { w1 with pks := some { p with bucket := some kmsBucketName } })
      | .ok db' =>
        .ret (none, { w1 with pks := some { db := db', bucket := some kmsBucketName } })

/-- The function `InitPublicKeyStore`. The result of `bolt.Open(dbPath, ..)` is
the argument `opened`: the database found or created at the path, or the
message of the error. -/
def InitPublicKeyStore (x : Ext) (w : World) (opened : Except String DB)
    (initNode : Option Node) : Go (Option Err × World) :=
  match opened with
  | .error msg => .ret (some (.other msg), w)
  | .ok bdb =>
    match txCreateBucketIfNotExists bdb kmsBucketName with
    | .error e => .ret (some e, w)
    | .ok db' =>
      let w1 : World := { w with pks := some { db := db', bucket := some kmsBucketName } }
      match initNode with
      | some n => setNode x w1 n
      | none => .ret (none, w1)

/-- One call of the directory API that can change the store. -/
inductive Op where
  | SetNode (nodeInfo : Option Node)
  | SetPublicKey (id : NodeID) (nonce : Uint256) (publicKey : Option PublicKey)
  | DelNode (id : NodeID)
  | ResetBucket
  deriving DecidableEq, Repr

/-- Effect of one call. -/
def stepOp (x : Ext) (w : World) : Op → Go (Option Err × World)
  | .SetNode nodeInfo => SetNode x w nodeInfo
  | .SetPublicKey id nonce publicKey => SetPublicKey x w id nonce publicKey
  | .DelNode id => DelNode w id
  | .ResetBucket => ResetBucket w

/-- Effect of a sequence of calls, errors dropped; a panic ends the run. -/
def runOps (x : Ext) : World → List Op → Go World
  | w, [] => .ret w
  | w, op :: ops =>
    match stepOp x w op with
    | .panic => .panic
    | .ret (_, w1) => runOps x w1 ops

/-- The world right after a successful `InitPublicKeyStore` on a fresh file
without a bootstrap node (see `InitPublicKeyStore_fresh`): the `kms` bucket
exists and is empty. -/
def openEmpty (unittest : Bool) : World :=
  { pks := some { db := [(kmsBucketName, [])], bucket := some kmsBucketName },
    Unittest := unittest }

/-- The binding of one stored entry: its value is the encoding of a record, and
decodes to that record, whose ID is the entry's key, whose `PublicKey` is
non-nil, and whose key and nonce hash to the hash the key parses to. -/
def EntryBound (x : Ext) (e : String × Bytes) : Prop :=
  ∃ (r : Node) (pk : PublicKey) (h : Hash),
    x.Encode r = .ok e.2 ∧ x.Decode e.2 = (r, none) ∧ r.ID = e.1 ∧
    r.PublicKey = some pk ∧ x.NewHashFromStr e.1 = some h ∧
    x.HashBlock (x.Serialize pk) r.Nonce = h

/-- The directory is open with the check switched on, and every entry of its
bucket is bound. -/
def DirectoryBound (x : Ext) (w : World) : Prop :=
  w.Unittest = false ∧
  ∃ (p : PublicKeyStore) (b : Bucket),
    w.pks = some p ∧ p.bucket = some kmsBucketName ∧ txBucket p.db p.bucket = some b ∧
    ∀ e ∈ b, EntryBound x e

/-! ## `localkeystore.go` -/

/-- The struct `LocalKeyStore` (fields `private` and `public` carry a trailing
underscore; a nil `nodeID` slice is `none`). -/
structure LocalKeyStore where
  isSet : Bool
  private_ : Option PrivateKey
  public_ : Option PublicKey
  nodeID : Option Bytes
  nodeNonce : Option Uint256
  deriving DecidableEq, Repr

/-- Package variables of `localkeystore.go`: `localKey`, and whether
`localKeyOnce` has fired. -/
structure LocalWorld where
  localKey : Option LocalKeyStore
  localKeyOnce : Bool
  deriving DecidableEq, Repr

/-- The function `InitLocalKeyStore`. -/
def InitLocalKeyStore (lw : LocalWorld) : LocalWorld :=
  if lw.localKeyOnce then lw
  else
    { localKey := some { isSet := false, private_ := none, public_ := none,
                         nodeID := none, nodeNonce := none },
      localKeyOnce := true }

/-- The function `SetLocalKeyPair`. -/
def SetLocalKeyPair (lw : LocalWorld) (priv : Option PrivateKey) (pub : Option PublicKey) :
    Go LocalWorld :=
  match lw.localKey with
  | none => .panic
  | some k =>
    if k.isSet then .ret lw
    else .ret { lw with localKey := some { k with isSet := true, private_ := priv, public_ := pub } }

/-- The function `SetLocalNodeIDNonce`. -/
def SetLocalNodeIDNonce (lw : LocalWorld) (rawNodeID : Bytes) (nonce : Option Uint256) :
    Go LocalWorld :=
  match lw.localKey with
  | none => .panic
  | some k =>
    let k1 := { k with nodeID := some rawNodeID }
    match nonce with
    | some n => .ret { lw with localKey := some { k1 with nodeNonce := some n } }
    | none => .ret { lw with localKey := some k1 }

/-- The function `GetLocalNodeID`. -/
def GetLocalNodeID (lw : LocalWorld) : Go (Option Bytes × Option Err) :=
  match lw.localKey with
  | none => .panic
  | some k =>
    match k.nodeID with
    | some b => .ret (some b, none)
    | none => .ret (none, some .ErrNilField)

/-- The function `GetLocalNonce`. -/
def GetLocalNonce (lw : LocalWorld) : Go (Option Uint256 × Option Err) :=
  match lw.localKey with
  | none => .panic
  | some k =>
    match k.nodeNonce with
    | some n => .ret (some n, none)
    | none => .ret (none, some .ErrNilField)

/-- The function `GetLocalPublicKey`. -/
def GetLocalPublicKey (lw : LocalWorld) : Go (Option PublicKey × Option Err) :=
  match lw.localKey with
  | none => .panic
  | some k =>
    match k.public_ with
    | some pk => .ret (some pk, none)
    | none => .ret (none, some .ErrNilField)

/-- The function `GetLocalPrivateKey` (the stack trace it logs is not part of
the state). -/
def GetLocalPrivateKey (lw : LocalWorld) : Go (Option PrivateKey × Option Err) :=
  match lw.localKey with
  | none => .panic
  | some k =>
    match k.private_ with
    | some sk => .ret (some sk, none)
    | none => .ret (none, some .ErrNilField)

/-- One call of the local key store API. -/
inductive LocalCall where
  | InitLocalKeyStore
  | SetLocalKeyPair (priv : Option PrivateKey) (pub : Option PublicKey)
  | SetLocalNodeIDNonce (rawNodeID : Bytes) (nonce : Option Uint256)
  | GetLocalNodeID
  | GetLocalNonce
  | GetLocalPublicKey
  | GetLocalPrivateKey
  deriving DecidableEq, Repr

/-- A getter leaves the state as it is, unless it panics. -/
def afterGet {α : Type} (lw : LocalWorld) : Go α → Go LocalWorld
  | .panic => .panic
  | .ret _ => .ret lw

/-- Effect of one call on the package state. -/
def stepLocal (lw : LocalWorld) : LocalCall → Go LocalWorld
  | .InitLocalKeyStore => .ret (InitLocalKeyStore lw)
  | .SetLocalKeyPair priv pub => SetLocalKeyPair lw priv pub
  | .SetLocalNodeIDNonce rawNodeID nonce => SetLocalNodeIDNonce lw rawNodeID nonce
  | .GetLocalNodeID => afterGet lw (GetLocalNodeID lw)
  | .GetLocalNonce => afterGet lw (GetLocalNonce lw)
  | .GetLocalPublicKey => afterGet lw (GetLocalPublicKey lw)
  | .GetLocalPrivateKey => afterGet lw (GetLocalPrivateKey lw)

/-- Effect of a sequence of calls; a panic ends the run. -/
def runLocal : LocalWorld → List LocalCall → Go LocalWorld
  | lw, [] => .ret lw
  | lw, c :: cs =>
    match stepLocal lw c with
    | .panic => .panic
    | .ret lw1 => runLocal lw1 cs

/-- Package state at program start: `localKey` nil, `localKeyOnce` not fired. -/
def localStart : LocalWorld := { localKey := none, localKeyOnce := false }

/-- The arguments of the first `SetLocalKeyPair` call in a sequence, as the
specification words it ("first-writer-wins"). -/
def firstKeyPair : List LocalCall → Option (Option PrivateKey × Option PublicKey)
  | [] => none
  | .SetLocalKeyPair priv pub :: _ => some (priv, pub)
  | _ :: cs => firstKeyPair cs

/-- What a getter returns for a stored pointer: the value, and `ErrNilField`
when it is nil. -/
def fieldResult {α : Type} (v : Option α) : Option α × Option Err :=
  match v with
  | some a => (some a, none)
  | none => (none, some .ErrNilField)

/-- Whether a call is a `SetLocalNodeIDNonce`. -/
def setsNodeID : LocalCall → Bool
  | .SetLocalNodeIDNonce _ _ => true
  | _ => false

/-- Whether a call is a `SetLocalNodeIDNonce` that supplies a non-nil nonce. -/
def suppliesNonce : LocalCall → Bool
  | .SetLocalNodeIDNonce _ (some _) => true
  | _ => false

/-- Whether a directory call is `ResetBucket`. -/
def isReset : Op → Bool
  | .ResetBucket => true
  | _ => false

/-- The directory is initialised and its bucket name resolves to a bucket of the
store. -/
def BucketOpen (w : World) : Prop :=
  ∃ (p : PublicKeyStore) (name : String) (b : Bucket),
    w.pks = some p ∧ p.bucket = some name ∧ kvGet p.db name = some b

/-! ## Block encoding (`blockproducer`) -/

/-- A prefix codec: `put` writes a value, `get` reads one value off the front
of a buffer and hands back the unread rest. -/
structure Codec (α : Type) where
  put : α → Bytes
  get : Bytes → Option (α × Bytes)

/-- A codec reads back what it wrote, whatever follows in the buffer. -/
def Codec.Lawful {α : Type} (c : Codec α) : Prop :=
  ∀ (a : α) (rest : Bytes), c.get (c.put a ++ rest) = some (a, rest)

/-- Two values one after the other. -/
def Codec.seq {α β : Type} (a : Codec α) (b : Codec β) : Codec (α × β) where
  put p := a.put p.1 ++ b.put p.2
  get buf :=
    match a.get buf with
    | none => none
    | some (x, r1) =>
      match b.get r1 with
      | none => none
      | some (y, r2) => some ((x, y), r2)

/-- A codec carried along a pair of conversions. -/
def Codec.imap {α β : Type} (c : Codec α) (f : α → β) (g : β → α) : Codec β where
  put b := c.put (g b)
  get buf :=
    match c.get buf with
    | none => none
    | some (x, r) => some (f x, r)

/-- Reading `n` values in a row. -/
def Codec.getN {α : Type} (c : Codec α) : Nat → Bytes → Option (List α × Bytes)
  | 0, buf => some ([], buf)
  | n + 1, buf =>
    match c.get buf with
    | none => none
    | some (x, r1) =>
      match Codec.getN c n r1 with
      | none => none
      | some (xs, r2) => some (x :: xs, r2)

/-- Writing values in a row, in order. -/
def Codec.putAll {α : Type} (c : Codec α) : List α → Bytes
  | [] => []
  | x :: xs => c.put x ++ Codec.putAll c xs

/-- An ordered sequence: its length, then its elements in order. -/
def Codec.list {α : Type} (count : Codec Nat) (c : Codec α) : Codec (List α) where
  put xs := count.put xs.length ++ Codec.putAll c xs
  get buf :=
    match count.get buf with
    | none => none
    | some (n, r) => Codec.getN c n r

/-- The type `asymmetric.Signature`: the pair `(R, S)`. -/
structure Signature where
  R : Int
  S : Int
  deriving DecidableEq, Repr

/-- The struct `TxData`, fields as set in `block_test.go`. -/
structure TxData where
  AccountNonce : Nat
  Recipient : String
  Amount : Int
  Payload : Bytes
  Signature : Signature
  PublicKey : PublicKey
  deriving DecidableEq, Repr

/-- The struct `Tx`. -/
structure Tx where
  TxHash : Hash
  TxData : TxData
  deriving DecidableEq, Repr

/-- The struct `Header` (`Timestamp` as nanoseconds since the epoch, UTC). -/
structure Header where
  Version : Int
  Producer : String
  Root : Hash
  Parent : Hash
  MerkleRoot : Hash
  Timestamp : Int
  deriving DecidableEq, Repr

/-- The struct `SignedHeader`. -/
structure SignedHeader where
  Header : Header
  BlockHash : Hash
  PublicKey : PublicKey
  Signature : Signature
  deriving DecidableEq, Repr

/-- The struct `Block`: a signed header and an ordered transaction sequence. -/
structure Block where
  Header : SignedHeader
  Tx : List Tx
  deriving DecidableEq, Repr

/-- Byte encodings of the scalar and primitive types, which the specification
leaves to collaborators ("opaque ... types with byte-exact encode/decode"). -/
structure Wire where
  hash : Codec Hash
  publicKey : Codec PublicKey
  signature : Codec Signature
  uint64 : Codec Nat
  version : Codec Int
  bigInt : Codec Int
  str : Codec String
  bytes : Codec Bytes
  time : Codec Int
  count : Codec Nat

/-- Every primitive encoding reads back what it wrote. -/
structure Wire.Lawful (W : Wire) : Prop where
  hash : W.hash.Lawful
  publicKey : W.publicKey.Lawful
  signature : W.signature.Lawful
  uint64 : W.uint64.Lawful
  version : W.version.Lawful
  bigInt : W.bigInt.Lawful
  str : W.str.Lawful
  bytes : W.bytes.Lawful
  time : W.time.Lawful
  count : W.count.Lawful

/-- Modelled from the spec: the encoding of `TxData`, which is not among the
embedded files; its fields in declaration order. -/
def txDataCodec (W : Wire) : Codec TxData :=
  (W.uint64.seq (W.str.seq (W.bigInt.seq (W.bytes.seq (W.signature.seq W.publicKey))))).imap
    (fun t => { AccountNonce := t.1, Recipient := t.2.1, Amount := t.2.2.1,
                Payload := t.2.2.2.1, Signature := t.2.2.2.2.1, PublicKey := t.2.2.2.2.2 })
    (fun d => (d.AccountNonce, d.Recipient, d.Amount, d.Payload, d.Signature, d.PublicKey))

/-- Modelled from the spec: the encoding behind `Tx.marshal` and `Tx.unmarshal`,
which are not among the embedded files: "canonical binary encoding of TxHash and
TxData". -/
def txCodec (W : Wire) : Codec Tx :=
  (W.hash.seq (txDataCodec W)).imap
    (fun t => { TxHash := t.1, TxData := t.2 })
    (fun t => (t.TxHash, t.TxData))

/-- Modelled from the spec: the encoding of the nested `Header` struct
(Version, Producer, Root, Parent, MerkleRoot, Timestamp). -/
def headerCodec (W : Wire) : Codec Header :=
  (W.version.seq (W.str.seq (W.hash.seq (W.hash.seq (W.hash.seq W.time))))).imap
    (fun t => { Version := t.1, Producer := t.2.1, Root := t.2.2.1, Parent := t.2.2.2.1,
                MerkleRoot := t.2.2.2.2.1, Timestamp := t.2.2.2.2.2 })
    (fun h => (h.Version, h.Producer, h.Root, h.Parent, h.MerkleRoot, h.Timestamp))

/-- Modelled from the spec: the encoding behind `SignedHeader.marshal` and
`SignedHeader.unmarshal`, which are not among the embedded files: the nested
header, then BlockHash, PublicKey and Signature. -/
def signedHeaderCodec (W : Wire) : Codec SignedHeader :=
  ((headerCodec W).seq (W.hash.seq (W.publicKey.seq W.signature))).imap
    (fun t => { Header := t.1, BlockHash := t.2.1, PublicKey := t.2.2.1, Signature := t.2.2.2 })
    (fun h => (h.Header, h.BlockHash, h.PublicKey, h.Signature))

/-- Modelled from the spec: the encoding behind `Block.marshal` and
`Block.unmarshal`, which are not among the embedded files: "encodes Header
followed by the ordered transaction sequence (including the zero-length
case)". -/
def blockCodec (W : Wire) : Codec Block :=
  ((signedHeaderCodec W).seq (Codec.list W.count (txCodec W))).imap
    (fun t => { Header := t.1, Tx := t.2 })
    (fun b => (b.Header, b.Tx))

/-- Modelled from the spec: the method `Block.marshal`, which is not among the
embedded files; it returns the encoding and no error. -/
def Block.marshal (W : Wire) (b : Block) : Res Bytes :=
  .ok ((blockCodec W).put b)

/-- Modelled from the spec: the method `Block.unmarshal`, which is not among the
embedded files; "decode fails on truncated/malformed input", and bytes left
over after the block count as malformed. -/
def Block.unmarshal (W : Wire) (buf : Bytes) : Res Block :=
  match (blockCodec W).get buf with
  | some (b, []) => .ok b
  | some (_, _ :: _) => .error (.other "trailing bytes")
  | none => .error (.other "malformed block")

/-! ## A small concrete instance

Simple stand-ins for the collaborators, used to run the definitions on concrete
inputs. -/

/-- Base-128 writing of a natural number, low digits first; every byte but the
last has its top bit set. The first argument bounds the number of digits. -/
def varintPut : Nat → Nat → Bytes
  | 0, n => [n.toUInt8]
  | fuel + 1, n =>
    if n < 128 then [n.toUInt8]
    else (n % 128 + 128).toUInt8 :: varintPut fuel (n / 128)

/-- Base-128 reading. -/
def varintGet : Bytes → Option (Nat × Bytes)
  | [] => none
  | b :: rest =>
    if b.toNat < 128 then some (b.toNat, rest)
    else
      match varintGet rest with
      | none => none
      | some (n, r) => some (b.toNat - 128 + 128 * n, r)

/-- Naturals in base 128. -/
def natC : Codec Nat := { put := fun n => varintPut n n, get := varintGet }

/-- One byte, as it is. -/
def byteC : Codec UInt8 where
  put b := [b]
  get buf :=
    match buf with
    | [] => none
    | b :: rest => some (b, rest)

/-- Byte strings: length, then the bytes. -/
def bytesC : Codec Bytes := Codec.list natC byteC

/-- Integers: a sign tag, then the magnitude. -/
def intC : Codec Int :=
  (natC.seq natC).imap
    (fun t => if t.1 = 0 then Int.ofNat t.2 else Int.negSucc t.2)
    (fun i => match i with
      | Int.ofNat n => (0, n)
      | Int.negSucc n => (1, n))

/-- Strings: the code points of the characters. -/
def stringC : Codec String :=
  (Codec.list natC natC).imap
    (fun l => String.mk (l.map Char.ofNat))
    (fun s => s.data.map Char.toNat)

/-- Digests: their bytes. -/
def hashC : Codec Hash := bytesC.imap Hash.mk Hash.bytes

/-- Public keys: their code. -/
def publicKeyC : Codec PublicKey := natC.imap PublicKey.mk PublicKey.code

/-- Signatures: R, then S. -/
def signatureC : Codec Signature :=
  (intC.seq intC).imap (fun t => { R := t.1, S := t.2 }) (fun g => (g.R, g.S))

/-- The small wire format. -/
def toyWire : Wire :=
  { hash := hashC, publicKey := publicKeyC, signature := signatureC, uint64 := natC,
    version := intC, bigInt := intC, str := stringC, bytes := bytesC, time := intC,
    count := natC }

/-- Optional public key: a presence tag, then the key. -/
def optKeyC : Codec (Option PublicKey) :=
  (natC.seq natC).imap
    (fun t => if t.1 = 0 then none else some (PublicKey.mk t.2))
    (fun o => match o with
      | none => (0, 0)
      | some pk => (1, pk.code))

/-- Nonces: the four words. -/
def uint256C : Codec Uint256 :=
  (natC.seq (natC.seq (natC.seq natC))).imap
    (fun t => { A := t.1, B := t.2.1, C := t.2.2.1, D := t.2.2.2 })
    (fun n => (n.A, n.B, n.C, n.D))

/-- Node records: ID, Addr, PublicKey, Nonce. -/
def nodeC : Codec Node :=
  (stringC.seq (stringC.seq (optKeyC.seq uint256C))).imap
    (fun t => { ID := t.1, Addr := t.2.1, PublicKey := t.2.2.1, Nonce := t.2.2.2 })
    (fun n => (n.ID, n.Addr, n.PublicKey, n.Nonce))

/-- The node a failed decode leaves behind. -/
def zeroNode : Node :=
  { ID := "", Addr := "", PublicKey := none, Nonce := { A := 0, B := 0, C := 0, D := 0 } }

/-- Small stand-ins for the collaborators of `pubkeystore.go`: the digest of a
key and nonce is the key code followed by the last nonce word, as bytes; an ID
of at most 64 characters parses to the bytes of its characters. -/
def toyExt : Ext where
  Serialize pk := [pk.code.toUInt8]
  HashBlock b n := Hash.mk (b ++ [n.D.toUInt8])
  NewHashFromStr s :=
    if s.length ≤ 64 then some (Hash.mk (s.data.map (fun c => c.toNat.toUInt8))) else none
  Encode n := .ok (nodeC.put n)
  Decode buf :=
    match nodeC.get buf with
    | some (n, _) => (n, none)
    | none => (zeroNode, some "malformed node")

/-- A node whose ID is the digest of its key and nonce under `toyExt`. -/
def goodNode : Node :=
  { ID := "ab", Addr := "10.0.0.1:4661", PublicKey := some (PublicKey.mk 97),
    Nonce := { A := 0, B := 0, C := 0, D := 98 } }

/-- The record `goodNode` at another address. -/
def goodNodeMoved : Node := { goodNode with Addr := "10.0.0.9:4661" }

/-- An open directory holding the given encoded records. -/
def openWith (unittest : Bool) (entries : Bucket) : World :=
  { pks := some { db := [(kmsBucketName, entries)], bucket := some kmsBucketName },
    Unittest := unittest }

/-- A signed header in the manner of `header` in `block_test.go`. -/
def sampleHeader : SignedHeader :=
  { Header := { Version := 2, Producer := "9142", Root := Hash.mk [4, 2, 1, 10],
                Parent := Hash.mk [1, 9, 2, 22], MerkleRoot := Hash.mk [9, 2, 1, 11],
                Timestamp := 1530000000 },
    BlockHash := Hash.mk [1, 2, 3], PublicKey := PublicKey.mk 5,
    Signature := { R := 8391, S := 2371 } }

/-- A transaction in the manner of `txSlice[i]` in `block_test.go`. -/
def sampleTx (i : Nat) : Tx :=
  { TxHash := Hash.mk [i.toUInt8],
    TxData := { AccountNonce := i, Recipient := "r", Amount := Int.ofNat i,
                Payload := [(i / 2).toUInt8],
                Signature := { R := 1238 * Int.ofNat i, S := -3 },
                PublicKey := PublicKey.mk (i + 1) } }

/-- The block without transactions, like `voidBlock` in `block_test.go`. -/
def voidBlock : Block := { Header := sampleHeader, Tx := [] }

/-- A block with transactions, like `block` in `block_test.go`. -/
def block : Block := { Header := sampleHeader, Tx := [sampleTx 0, sampleTx 1, sampleTx 200] }

/-- A record without a public key and with an ID that is no digest. -/
def keylessNode : Node :=
  { ID := "not a hash, and longer than sixty-four characters, which no digest can be",
    Addr := "10.0.0.3:4661", PublicKey := none, Nonce := { A := 0, B := 0, C := 0, D := 0 } }

/-- Package state before `InitPublicKeyStore` was ever called. -/
def unopened : World := { pks := none, Unittest := false }

/-- A node whose ID parses but is not the digest of its key and nonce. -/
def badNode : Node :=
  { ID := "zz", Addr := "10.0.0.2:4661", PublicKey := some (PublicKey.mk 97),
    Nonce := { A := 0, B := 0, C := 0, D := 98 } }

/-- A node whose ID is too long to parse as a digest. -/
def longIDNode : Node :=
  { ID := String.mk (List.replicate 65 (Char.ofNat 48)), Addr := "",
    PublicKey := some (PublicKey.mk 97), Nonce := { A := 0, B := 0, C := 0, D := 98 } }

/-! ## Facts about the store -/

theorem kvGet_kvPut_same {β : Type} (l : List (String × β)) (k : String) (v : β) :
    kvGet (kvPut l k v) k = some v := by
  induction l with
  | nil => simp [kvPut, kvGet]
  | cons e rest ih =>
    obtain ⟨k1, v1⟩ := e
    by_cases h1 : k = k1
    · simp [kvPut, kvGet, h1]
    · by_cases h2 : k < k1
      · simp [kvPut, kvGet, h1, h2]
      · simp [kvPut, kvGet, h1, h2, ih]

theorem kvGet_kvPut_other {β : Type} (l : List (String × β)) (k j : String) (v : β)
    (hj : j ≠ k) : kvGet (kvPut l k v) j = kvGet l j := by
  induction l with
  | nil => simp [kvPut, kvGet, hj]
  | cons e rest ih =>
    obtain ⟨k1, v1⟩ := e
    by_cases h1 : k = k1
    · subst h1
      simp [kvPut, kvGet, hj]
    · by_cases h2 : k < k1
      · simp [kvPut, kvGet, h1, h2, hj]
      · simp [kvPut, kvGet, h1, h2, ih]

theorem kvPut_kvPut_same {β : Type} (l : List (String × β)) (k : String) (v : β) :
    kvPut (kvPut l k v) k v = kvPut l k v := by
  induction l with
  | nil => simp [kvPut]
  | cons e rest ih =>
    obtain ⟨k1, v1⟩ := e
    by_cases h1 : k = k1
    · simp [kvPut, h1]
    · by_cases h2 : k < k1
      · simp [kvPut, h1, h2]
      · simp [kvPut, h1, h2, ih]

theorem kvGet_kvDel_same {β : Type} (l : List (String × β)) (k : String) :
    kvGet (kvDel l k) k = none := by
  induction l with
  | nil => simp [kvDel, kvGet]
  | cons e rest ih =>
    obtain ⟨k1, v1⟩ := e
    by_cases h1 : k = k1
    · simp [kvDel, h1] at ih ⊢
      exact ih
    · simp [kvDel, kvGet, h1, ih]

theorem kvGet_kvDel_other {β : Type} (l : List (String × β)) (k j : String)
    (hj : j ≠ k) : kvGet (kvDel l k) j = kvGet l j := by
  induction l with
  | nil => simp [kvDel, kvGet]
  | cons e rest ih =>
    obtain ⟨k1, v1⟩ := e
    by_cases h1 : k = k1
    · subst h1
      simp [kvDel, kvGet, hj, ih]
    · simp [kvDel, kvGet, h1, ih]

theorem kvDel_kvDel_same {β : Type} (l : List (String × β)) (k : String) :
    kvDel (kvDel l k) k = kvDel l k := by
  induction l with
  | nil => simp [kvDel]
  | cons e rest ih =>
    obtain ⟨k1, v1⟩ := e
    by_cases h1 : k = k1
    · simp [kvDel, h1] at ih ⊢
      exact ih
    · simp [kvDel, h1, ih]

theorem mem_kvPut {β : Type} (l : List (String × β)) (k : String) (v : β) (e : String × β)
    (he : e ∈ kvPut l k v) : e = (k, v) ∨ e ∈ l := by
  induction l with
  | nil => simpa [kvPut] using he
  | cons e1 rest ih =>
    obtain ⟨k1, v1⟩ := e1
    by_cases h1 : k = k1
    · simp [kvPut, h1] at he
      rcases he with he | he
      · left; rw [he, h1]
      · right; exact List.mem_cons_of_mem _ he
    · by_cases h2 : k < k1
      · simp [kvPut, h1, h2] at he
        rcases he with he | he | he
        · left; exact he
        · right; rw [he]; exact List.mem_cons_self _ _
        · right; exact List.mem_cons_of_mem _ he
      · simp [kvPut, h1, h2] at he
        rcases he with he | he
        · right; rw [he]; exact List.mem_cons_self _ _
        · rcases ih he with h | h
          · left; exact h
          · right; exact List.mem_cons_of_mem _ h

theorem mem_kvDel {β : Type} (l : List (String × β)) (k : String) (e : String × β)
    (he : e ∈ kvDel l k) : e ∈ l := by
  induction l with
  | nil => simp [kvDel] at he
  | cons e1 rest ih =>
    obtain ⟨k1, v1⟩ := e1
    by_cases h1 : k = k1
    · simp [kvDel, h1] at he ih
      exact List.mem_cons_of_mem _ (ih he)
    · simp [kvDel, h1] at he
      rcases he with he | he
      · rw [he]; exact List.mem_cons_self _ _
      · exact List.mem_cons_of_mem _ (ih he)

/-! ## The binding check of `SetNode` -/

theorem bucketPut_error_cases (b : Bucket) (key : String) (value : Bytes) (e : Err)
    (h : bucketPut b key value = .error e) :
    e = .boltKeyRequired ∨ e = .boltKeyTooLarge ∨ e = .boltValueTooLarge := by
  unfold bucketPut at h
  split_ifs at h <;> simp at h <;> simp [← h]

theorem setNode_error_cases (x : Ext) (w w1 : World) (n : Node) (e : Err)
    (h : setNode x w n = .ret (some e, w1)) :
    (∃ msg, e = .other msg) ∨ e = .ErrBucketNotInitialized ∨ e = .boltKeyRequired ∨
      e = .boltKeyTooLarge ∨ e = .boltValueTooLarge := by
  unfold setNode at h
  split at h
  · simp at h
    exact Or.inl ⟨_, h.1.symm⟩
  · split at h
    · simp at h
    · split at h
      · split at h
        · rename_i e1 hput
          simp at h
          have := bucketPut_error_cases _ _ _ _ hput
          rw [h.1] at this
          tauto
        · simp at h
      · simp at h
        simp [← h.1]

theorem setNode_not_binding_error (x : Ext) (w : World) (n : Node) :
    setNode x w n ≠ .ret (some .ErrNotValidNodeID, w) ∧
      setNode x w n ≠ .ret (some .ErrNodeIDKeyNonceNotMatch, w) := by
  constructor <;> intro h <;> have := setNode_error_cases _ _ _ _ _ h <;> simp at this

/-- C1. With `Unittest` false and a non-nil record with a non-nil `PublicKey`:
`SetNode` does not answer with one of its two binding errors exactly when the ID
parses as a hash and `HashBlock(Serialize(PublicKey), Nonce)` equals that hash,
and it then goes on to the unchecked `setNode`; it returns `ErrNotValidNodeID`
when the ID does not parse, `ErrNodeIDKeyNonceNotMatch` when it parses but
differs from the recomputed digest, and in both cases the world it leaves is the
one it found. -/
theorem SetNode_binding_check (x : Ext) (w : World) (n : Node) (pk : PublicKey)
    (hU : w.Unittest = false) (hpk : n.PublicKey = some pk) :
    ((SetNode x w (some n) ≠ .ret (some .ErrNotValidNodeID, w) ∧
        SetNode x w (some n) ≠ .ret (some .ErrNodeIDKeyNonceNotMatch, w)) ↔
      ∃ h, x.NewHashFromStr n.ID = some h ∧ x.HashBlock (x.Serialize pk) n.Nonce = h) ∧
    (∀ h, x.NewHashFromStr n.ID = some h → x.HashBlock (x.Serialize pk) n.Nonce = h →
      SetNode x w (some n) = setNode x w n) ∧
    (x.NewHashFromStr n.ID = none →
      SetNode x w (some n) = .ret (some .ErrNotValidNodeID, w)) ∧
    (∀ h, x.NewHashFromStr n.ID = some h → x.HashBlock (x.Serialize pk) n.Nonce ≠ h →
      SetNode x w (some n) = .ret (some .ErrNodeIDKeyNonceNotMatch, w)) := by
  have pass : ∀ h, x.NewHashFromStr n.ID = some h → x.HashBlock (x.Serialize pk) n.Nonce = h →
      SetNode x w (some n) = setNode x w n := by
    intro h hparse heq
    simp [SetNode, hU, hpk, hparse, heq]
  have bad : x.NewHashFromStr n.ID = none →
      SetNode x w (some n) = .ret (some .ErrNotValidNodeID, w) := by
    intro hparse
    simp [SetNode, hU, hpk, hparse]
  have differ : ∀ h, x.NewHashFromStr n.ID = some h → x.HashBlock (x.Serialize pk) n.Nonce ≠ h →
      SetNode x w (some n) = .ret (some .ErrNodeIDKeyNonceNotMatch, w) := by
    intro h hparse hne
    simp [SetNode, hU, hpk, hparse, hne]
  refine ⟨⟨?_, ?_⟩, pass, bad, differ⟩
  · rintro ⟨h1, h2⟩
    cases hparse : x.NewHashFromStr n.ID with
    | none => exact absurd (bad hparse) h1
    | some h =>
      by_cases heq : x.HashBlock (x.Serialize pk) n.Nonce = h
      · exact ⟨h, rfl, heq⟩
      · exact absurd (differ h hparse heq) h2
  · rintro ⟨h, hparse, heq⟩
    rw [pass h hparse heq]
    exact setNode_not_binding_error x w n

theorem SetNode_binding_check_witness :
    (openEmpty false).Unittest = false ∧ goodNode.PublicKey = some (PublicKey.mk 97) ∧
    toyExt.NewHashFromStr goodNode.ID = some (Hash.mk [97, 98]) ∧
    toyExt.HashBlock (toyExt.Serialize (PublicKey.mk 97)) goodNode.Nonce = Hash.mk [97, 98] ∧
    SetNode toyExt (openEmpty false) (some goodNode) = setNode toyExt (openEmpty false) goodNode ∧
    toyExt.NewHashFromStr longIDNode.ID = none ∧
    SetNode toyExt (openEmpty false) (some longIDNode) =
      .ret (some .ErrNotValidNodeID, openEmpty false) ∧
    toyExt.NewHashFromStr badNode.ID = some (Hash.mk [122, 122]) ∧
    SetNode toyExt (openEmpty false) (some badNode) =
      .ret (some .ErrNodeIDKeyNonceNotMatch, openEmpty false) :=
  ⟨rfl, rfl, by decide, by decide,
    (SetNode_binding_check toyExt (openEmpty false) goodNode (PublicKey.mk 97) rfl rfl).2.1
      (Hash.mk [97, 98]) (by decide) (by decide),
    by decide,
    (SetNode_binding_check toyExt (openEmpty false) longIDNode (PublicKey.mk 97) rfl rfl).2.2.1
      (by decide),
    by decide,
    (SetNode_binding_check toyExt (openEmpty false) badNode (PublicKey.mk 97) rfl rfl).2.2.2
      (Hash.mk [122, 122]) (by decide) (by decide)⟩

/-! ## Codecs -/

theorem Codec.seq_lawful {α β : Type} (a : Codec α) (b : Codec β) (ha : a.Lawful)
    (hb : b.Lawful) : (a.seq b).Lawful := by
  intro p rest
  simp [Codec.seq, List.append_assoc, ha p.1 (b.put p.2 ++ rest), hb p.2 rest]

theorem Codec.imap_lawful {α β : Type} (c : Codec α) (f : α → β) (g : β → α) (hc : c.Lawful)
    (hfg : ∀ b, f (g b) = b) : (c.imap f g).Lawful := by
  intro b rest
  simp [Codec.imap, hc (g b) rest, hfg b]

theorem Codec.getN_putAll {α : Type} (c : Codec α) (hc : c.Lawful) (xs : List α)
    (rest : Bytes) : Codec.getN c xs.length (Codec.putAll c xs ++ rest) = some (xs, rest) := by
  induction xs with
  | nil => simp [Codec.getN, Codec.putAll]
  | cons x xs ih =>
    simp [Codec.getN, Codec.putAll, List.append_assoc, hc x (Codec.putAll c xs ++ rest), ih]

theorem Codec.list_lawful {α : Type} (count : Codec Nat) (c : Codec α) (hn : count.Lawful)
    (hc : c.Lawful) : (Codec.list count c).Lawful := by
  intro xs rest
  simp [Codec.list, List.append_assoc, hn xs.length (Codec.putAll c xs ++ rest),
    Codec.getN_putAll c hc xs rest]

theorem toUInt8_toNat (k : Nat) (hk : k < 256) : k.toUInt8.toNat = k :=
  UInt8.toNat_ofNat_of_lt hk

theorem varintGet_varintPut (fuel : Nat) : ∀ (n : Nat) (rest : Bytes), n ≤ fuel →
    varintGet (varintPut fuel n ++ rest) = some (n, rest) := by
  induction fuel with
  | zero =>
    intro n rest hn
    have h0 : n = 0 := by omega
    subst h0
    simp [varintPut, varintGet, toUInt8_toNat]
  | succ fuel ih =>
    intro n rest hn
    by_cases hlt : n < 128
    · have h256 : n < 256 := by omega
      simp [varintPut, varintGet, hlt, toUInt8_toNat n h256]
    · have h256 : n % 128 + 128 < 256 := by omega
      have hle : n / 128 ≤ fuel := by omega
      have hnot : ¬ (n % 128 + 128 < 128) := by omega
      simp only [varintPut, hlt, if_false, List.cons_append, varintGet,
        toUInt8_toNat _ h256, hnot, ih (n / 128) rest hle]
      have hn2 : n % 128 + 128 - 128 + 128 * (n / 128) = n := by omega
      rw [hn2]

theorem natC_lawful : natC.Lawful := by
  intro n rest
  exact varintGet_varintPut n n rest (Nat.le_refl n)

theorem byteC_lawful : byteC.Lawful := by
  intro b rest
  simp [byteC]

theorem bytesC_lawful : bytesC.Lawful :=
  Codec.list_lawful natC byteC natC_lawful byteC_lawful

theorem intC_lawful : intC.Lawful := by
  apply Codec.imap_lawful _ _ _ (Codec.seq_lawful _ _ natC_lawful natC_lawful)
  intro i
  cases i <;> simp

theorem stringC_lawful : stringC.Lawful := by
  apply Codec.imap_lawful _ _ _ (Codec.list_lawful _ _ natC_lawful natC_lawful)
  intro s
  have h : List.map Char.ofNat (List.map Char.toNat s.data) = s.data := by
    rw [List.map_map]
    conv_rhs => rw [← List.map_id s.data]
    apply List.map_congr_left
    intro c _
    simp
  rw [h]

theorem hashC_lawful : hashC.Lawful :=
  Codec.imap_lawful _ _ _ bytesC_lawful (fun _ => rfl)

theorem publicKeyC_lawful : publicKeyC.Lawful :=
  Codec.imap_lawful _ _ _ natC_lawful (fun _ => rfl)

theorem signatureC_lawful : signatureC.Lawful :=
  Codec.imap_lawful _ _ _ (Codec.seq_lawful _ _ intC_lawful intC_lawful) (fun _ => rfl)

theorem toyWire_lawful : toyWire.Lawful :=
  { hash := hashC_lawful, publicKey := publicKeyC_lawful, signature := signatureC_lawful,
    uint64 := natC_lawful, version := intC_lawful, bigInt := intC_lawful,
    str := stringC_lawful, bytes := bytesC_lawful, time := intC_lawful, count := natC_lawful }

theorem optKeyC_lawful : optKeyC.Lawful := by
  apply Codec.imap_lawful _ _ _ (Codec.seq_lawful _ _ natC_lawful natC_lawful)
  intro o
  cases o <;> simp

theorem uint256C_lawful : uint256C.Lawful :=
  Codec.imap_lawful _ _ _
    (Codec.seq_lawful _ _ natC_lawful
      (Codec.seq_lawful _ _ natC_lawful (Codec.seq_lawful _ _ natC_lawful natC_lawful)))
    (fun _ => rfl)

theorem nodeC_lawful : nodeC.Lawful :=
  Codec.imap_lawful _ _ _
    (Codec.seq_lawful _ _ stringC_lawful
      (Codec.seq_lawful _ _ stringC_lawful (Codec.seq_lawful _ _ optKeyC_lawful uint256C_lawful)))
    (fun _ => rfl)

theorem toyExt_roundTrip : toyExt.RoundTrip := by
  intro n b h
  simp only [toyExt, Except.ok.injEq] at h
  subst h
  have := nodeC_lawful n []
  simp only [List.append_nil] at this
  simp [toyExt, this]

/-! ## The binding of stored entries -/

theorem kmsBucketName_size : ¬ kmsBucketName.utf8ByteSize = 0 := by decide

theorem setNode_keeps_bound (x : Ext) (hx : x.RoundTrip) (w : World) (n : Node)
    (pk : PublicKey) (h : Hash) (hw : DirectoryBound x w) (hpk : n.PublicKey = some pk)
    (hparse : x.NewHashFromStr n.ID = some h)
    (hhash : x.HashBlock (x.Serialize pk) n.Nonce = h) :
    ∃ e w1, setNode x w n = .ret (e, w1) ∧ DirectoryBound x w1 := by
  obtain ⟨hU, p, b, hp, hname, hb, hall⟩ := hw
  cases henc : x.Encode n with
  | error msg =>
    exact ⟨some (.other msg), w, by simp [setNode, henc], hU, p, b, hp, hname, hb, hall⟩
  | ok buf =>
    cases hput : bucketPut b n.ID buf with
    | error e =>
      refine ⟨some e, w, ?_, hU, p, b, hp, hname, hb, hall⟩
      rw [hname] at hb
      simp [setNode, henc, hp, hname, hb, hput]
    | ok b1 =>
      have hb1 : b1 = kvPut b n.ID buf := by
        unfold bucketPut at hput
        split_ifs at hput
        simp at hput
        exact hput.symm
      rw [hname] at hb
      refine ⟨none, { w with pks := some { p with db := kvPut p.db kmsBucketName b1 } },
        by simp [setNode, henc, hp, hname, hb, hput], hU,
        { p with db := kvPut p.db kmsBucketName b1 }, b1, rfl, hname, ?_, ?_⟩
      · simp [txBucket, hname, kvGet_kvPut_same]
      · intro e he
        rw [hb1] at he
        rcases mem_kvPut _ _ _ _ he with he1 | he1
        · rw [he1]
          exact ⟨n, pk, h, henc, hx n buf henc, rfl, hpk, hparse, hhash⟩
        · exact hall e he1

theorem SetNode_keeps_bound (x : Ext) (hx : x.RoundTrip) (w : World) (nodeInfo : Option Node)
    (hw : DirectoryBound x w) :
    ∃ e w1, SetNode x w nodeInfo = .ret (e, w1) ∧ DirectoryBound x w1 := by
  have hU := hw.1
  cases nodeInfo with
  | none => exact ⟨some .ErrNilNode, w, by simp [SetNode], hw⟩
  | some n =>
    cases hpk : n.PublicKey with
    | none => exact ⟨some .ErrNilNode, w, by simp [SetNode, hU, hpk], hw⟩
    | some pk =>
      cases hparse : x.NewHashFromStr n.ID with
      | none => exact ⟨some .ErrNotValidNodeID, w, by simp [SetNode, hU, hpk, hparse], hw⟩
      | some h =>
        by_cases hhash : x.HashBlock (x.Serialize pk) n.Nonce = h
        · obtain ⟨e, w1, h1, h2⟩ := setNode_keeps_bound x hx w n pk h hw hpk hparse hhash
          exact ⟨e, w1, by simp [SetNode, hU, hpk, hparse, hhash, h1], h2⟩
        · exact ⟨some .ErrNodeIDKeyNonceNotMatch, w,
            by simp [SetNode, hU, hpk, hparse, hhash], hw⟩

theorem DelNode_keeps_bound (x : Ext) (w : World) (id : NodeID) (hw : DirectoryBound x w) :
    ∃ e w1, DelNode w id = .ret (e, w1) ∧ DirectoryBound x w1 := by
  obtain ⟨hU, p, b, hp, hname, hb, hall⟩ := hw
  rw [hname] at hb
  refine ⟨none, { w with pks := some { p with db := kvPut p.db kmsBucketName (kvDel b id) } },
    by simp [DelNode, hp, hname, hb, bucketDelete], hU,
    { p with db := kvPut p.db kmsBucketName (kvDel b id) }, kvDel b id, rfl, hname, ?_, ?_⟩
  · simp [txBucket, hname, kvGet_kvPut_same]
  · intro e he
    exact hall e (mem_kvDel _ _ _ he)

theorem ResetBucket_keeps_bound (x : Ext) (w : World) (hw : DirectoryBound x w) :
    ∃ e w1, ResetBucket w = .ret (e, w1) ∧ DirectoryBound x w1 := by
  obtain ⟨hU, p, b, hp, hname, hb, hall⟩ := hw
  rw [hname] at hb
  simp only [txBucket] at hb
  refine ⟨none, { w with pks := some { db := kvPut (kvDel p.db kmsBucketName) kmsBucketName [],
                                       bucket := some kmsBucketName } }, ?_, hU, _, [], rfl, rfl,
    ?_, ?_⟩
  · simp [ResetBucket, removeBucket, hp, txDeleteBucket, hb, txCreateBucketIfNotExists,
      kmsBucketName_size, kvGet_kvDel_same]
  · simp [txBucket, kvGet_kvPut_same]
  · intro e he
    simp at he

theorem runOps_keeps_bound (x : Ext) (hx : x.RoundTrip) (ops : List Op) :
    ∀ w, DirectoryBound x w → ∃ w1, runOps x w ops = .ret w1 ∧ DirectoryBound x w1 := by
  induction ops with
  | nil => intro w hw; exact ⟨w, rfl, hw⟩
  | cons op ops ih =>
    intro w hw
    have hstep : ∃ e w1, stepOp x w op = .ret (e, w1) ∧ DirectoryBound x w1 := by
      cases op with
      | SetNode nodeInfo => exact SetNode_keeps_bound x hx w nodeInfo hw
      | SetPublicKey id nonce publicKey =>
        exact SetNode_keeps_bound x hx w
          (some { ID := id, Addr := "", PublicKey := publicKey, Nonce := nonce }) hw
      | DelNode id => exact DelNode_keeps_bound x w id hw
      | ResetBucket => exact ResetBucket_keeps_bound x w hw
    obtain ⟨e, w1, h1, h2⟩ := hstep
    obtain ⟨w2, h3, h4⟩ := ih w1 h2
    exact ⟨w2, by simp [runOps, h1, h3], h4⟩

theorem InitPublicKeyStore_fresh (x : Ext) (unittest : Bool) :
    InitPublicKeyStore x { pks := none, Unittest := unittest } (.ok []) none =
      .ret (none, openEmpty unittest) := by
  simp [InitPublicKeyStore, txCreateBucketIfNotExists, kmsBucketName_size, kvGet, kvPut,
    openEmpty]

theorem openEmpty_bound (x : Ext) : DirectoryBound x (openEmpty false) := by
  refine ⟨rfl, _, [], rfl, rfl, ?_, ?_⟩
  · simp [txBucket, kvGet]
  · intro e he
    simp at he

/-- C2. From an open, empty bucket with `Unittest` false, every finite sequence
of `SetNode`, `SetPublicKey`, `DelNode` and `ResetBucket` calls runs to a world
whose bucket is open and in which every stored entry `(id, v)` decodes to a
record `r` with `r.ID = id`, a non-nil `PublicKey`, and
`HashBlock(Serialize(PublicKey), Nonce)` equal to the hash `id` parses to. The
codec is assumed to decode what it encoded. -/
theorem directory_entries_bound (x : Ext) (hx : x.RoundTrip) (ops : List Op) :
    ∃ (w : World) (p : PublicKeyStore) (b : Bucket),
      runOps x (openEmpty false) ops = .ret w ∧ w.pks = some p ∧
      txBucket p.db p.bucket = some b ∧
      ∀ (id : NodeID) (v : Bytes), (id, v) ∈ b →
        ∃ (r : Node) (pk : PublicKey) (h : Hash),
          x.Decode v = (r, none) ∧ r.ID = id ∧ r.PublicKey = some pk ∧
          x.NewHashFromStr id = some h ∧ x.HashBlock (x.Serialize pk) r.Nonce = h := by
  obtain ⟨w, hrun, -, p, b, hp, -, hb, hall⟩ :=
    runOps_keeps_bound x hx ops (openEmpty false) (openEmpty_bound x)
  refine ⟨w, p, b, hrun, hp, hb, ?_⟩
  intro id v hmem
  obtain ⟨r, pk, h, -, hdec, hid, hpk, hparse, hhash⟩ := hall (id, v) hmem
  exact ⟨r, pk, h, hdec, hid, hpk, hparse, hhash⟩

theorem directory_entries_bound_witness :
    toyExt.RoundTrip ∧
    runOps toyExt (openEmpty false)
        [.SetNode (some goodNode), .SetNode (some badNode), .DelNode "zz", .ResetBucket,
          .SetPublicKey "ab" goodNode.Nonce goodNode.PublicKey, .SetNode none] =
      .ret { pks := some { db := [("kms", [("ab", [2, 97, 98, 0, 1, 97, 0, 0, 0, 98])])],
                           bucket := some "kms" },
             Unittest := false } ∧
    ∃ (w : World) (p : PublicKeyStore) (b : Bucket),
      runOps toyExt (openEmpty false)
          [.SetNode (some goodNode), .SetNode (some badNode), .DelNode "zz", .ResetBucket,
            .SetPublicKey "ab" goodNode.Nonce goodNode.PublicKey, .SetNode none] = .ret w ∧
      w.pks = some p ∧ txBucket p.db p.bucket = some b ∧
      ∀ (id : NodeID) (v : Bytes), (id, v) ∈ b →
        ∃ (r : Node) (pk : PublicKey) (h : Hash),
          toyExt.Decode v = (r, none) ∧ r.ID = id ∧ r.PublicKey = some pk ∧
          toyExt.NewHashFromStr id = some h ∧
          toyExt.HashBlock (toyExt.Serialize pk) r.Nonce = h :=
  ⟨toyExt_roundTrip, by decide, directory_entries_bound toyExt toyExt_roundTrip _⟩

/-! ## Reading back what was set -/

theorem setNode_ok (x : Ext) (w w1 : World) (r : Node)
    (h : setNode x w r = .ret (none, w1)) :
    ∃ (p : PublicKeyStore) (name : String) (b : Bucket) (buf : Bytes),
      w.pks = some p ∧ p.bucket = some name ∧ kvGet p.db name = some b ∧
      x.Encode r = .ok buf ∧ r.ID.utf8ByteSize ≠ 0 ∧
      w1 = { w with pks := some { p with db := kvPut p.db name (kvPut b r.ID buf) } } := by
  unfold setNode at h
  split at h
  · simp at h
  · rename_i buf henc
    split at h
    · simp at h
    · rename_i p hp
      split at h
      · rename_i name b hname hb
        split at h
        · simp at h
        · rename_i b1 hput
          have hb1 : b1 = kvPut b r.ID buf ∧ r.ID.utf8ByteSize ≠ 0 := by
            unfold bucketPut at hput
            split_ifs at hput with h0
            simp at hput
            exact ⟨hput.symm, h0⟩
          simp at h
          rw [hname] at hb
          simp only [txBucket] at hb
          refine ⟨p, name, b, buf, hp, hname, hb, henc, hb1.2, ?_⟩
          rw [← h, hb1.1]
      · simp at h

theorem SetNode_ok (x : Ext) (w w1 : World) (r : Node)
    (h : SetNode x w (some r) = .ret (none, w1)) : setNode x w r = .ret (none, w1) := by
  cases hU : w.Unittest with
  | true => simpa [SetNode, hU] using h
  | false =>
    cases hpk : r.PublicKey with
    | none => simp [SetNode, hU, hpk] at h
    | some pk =>
      cases hparse : x.NewHashFromStr r.ID with
      | none => simp [SetNode, hU, hpk, hparse] at h
      | some hh =>
        by_cases heq : x.HashBlock (x.Serialize pk) r.Nonce = hh
        · simpa [SetNode, hU, hpk, hparse, heq] using h
        · simp [SetNode, hU, hpk, hparse, heq] at h

theorem GetNodeInfo_after_put (x : Ext) (hx : x.RoundTrip) (w : World) (p : PublicKeyStore)
    (name : String) (b : Bucket) (buf : Bytes) (r : Node) (hname : p.bucket = some name)
    (henc : x.Encode r = .ok buf) :
    GetNodeInfo x { w with pks := some { p with db := kvPut p.db name (kvPut b r.ID buf) } } r.ID =
      .ret (some r, none) := by
  simp [GetNodeInfo, txBucket, hname, kvGet_kvPut_same, hx r buf henc]

theorem GetNodeInfo_after_put_other (x : Ext) (w : World) (p : PublicKeyStore)
    (name : String) (b : Bucket) (buf : Bytes) (k id : NodeID) (hp : w.pks = some p)
    (hname : p.bucket = some name) (hb : kvGet p.db name = some b) (hid : id ≠ k) :
    GetNodeInfo x { w with pks := some { p with db := kvPut p.db name (kvPut b k buf) } } id =
      GetNodeInfo x w id := by
  simp [GetNodeInfo, txBucket, hname, kvGet_kvPut_same, kvGet_kvPut_other _ _ _ _ hid, hp, hb]

theorem GetPublicKey_of_GetNodeInfo (x : Ext) (w : World) (id : NodeID) (r : Node)
    (h : GetNodeInfo x w id = .ret (some r, none)) :
    GetPublicKey x w id = .ret (r.PublicKey, none) := by
  simp [GetPublicKey, h]

theorem SetNode_get_same (x : Ext) (hx : x.RoundTrip) (w w1 : World) (r : Node)
    (h : SetNode x w (some r) = .ret (none, w1)) :
    GetNodeInfo x w1 r.ID = .ret (some r, none) := by
  obtain ⟨p, name, b, buf, -, hname, -, henc, -, hw1⟩ := setNode_ok x w w1 r (SetNode_ok x w w1 r h)
  rw [hw1]
  exact GetNodeInfo_after_put x hx w p name b buf r hname henc

/-- C3. After a `SetNode(r)` that returns no error, `GetNodeInfo(r.ID)` returns
a record equal to `r` and `GetPublicKey(r.ID)` returns `r.PublicKey`, whatever
was stored under `r.ID` before; `GetNodeInfo(id)` for every other `id` returns
what it returned before the call; and a second successful `SetNode` for the
same ID leaves the record of the second call. The codec is assumed to decode
what it encoded. -/
theorem SetNode_last_write_wins (x : Ext) (hx : x.RoundTrip) (w w1 : World) (r : Node)
    (h : SetNode x w (some r) = .ret (none, w1)) :
    GetNodeInfo x w1 r.ID = .ret (some r, none) ∧
    GetPublicKey x w1 r.ID = .ret (r.PublicKey, none) ∧
    (∀ id : NodeID, id ≠ r.ID → GetNodeInfo x w1 id = GetNodeInfo x w id) ∧
    (∀ (r2 : Node) (w2 : World), r2.ID = r.ID → SetNode x w1 (some r2) = .ret (none, w2) →
      GetNodeInfo x w2 r.ID = .ret (some r2, none)) := by
  have hget := SetNode_get_same x hx w w1 r h
  refine ⟨hget, GetPublicKey_of_GetNodeInfo x w1 r.ID r hget, ?_, ?_⟩
  · intro id hid
    obtain ⟨p, name, b, buf, hp, hname, hb, -, -, hw1⟩ :=
      setNode_ok x w w1 r (SetNode_ok x w w1 r h)
    rw [hw1]
    exact GetNodeInfo_after_put_other x w p name b buf r.ID id hp hname hb hid
  · intro r2 w2 hid h2
    rw [← hid]
    exact SetNode_get_same x hx w1 w2 r2 h2

theorem SetNode_last_write_wins_witness :
    toyExt.RoundTrip ∧
    SetNode toyExt (openWith false [("ab", nodeC.put goodNode), ("zz", nodeC.put badNode)])
        (some goodNodeMoved) =
      .ret (none, openWith false [("ab", nodeC.put goodNodeMoved), ("zz", nodeC.put badNode)]) ∧
    GetNodeInfo toyExt (openWith false [("ab", nodeC.put goodNode), ("zz", nodeC.put badNode)])
        "ab" = .ret (some goodNode, none) ∧
    GetNodeInfo toyExt
        (openWith false [("ab", nodeC.put goodNodeMoved), ("zz", nodeC.put badNode)])
        goodNodeMoved.ID = .ret (some goodNodeMoved, none) :=
  ⟨toyExt_roundTrip, by decide, by decide,
    (SetNode_last_write_wins toyExt toyExt_roundTrip
      (openWith false [("ab", nodeC.put goodNode), ("zz", nodeC.put badNode)])
      (openWith false [("ab", nodeC.put goodNodeMoved), ("zz", nodeC.put badNode)])
      goodNodeMoved (by decide)).1⟩

/-! ## The local key pair -/

theorem runLocal_key_pair (cs : List LocalCall) :
    ∀ (lw : LocalWorld) (k : LocalKeyStore), lw.localKey = some k → lw.localKeyOnce = true →
      ∃ (lw1 : LocalWorld) (k1 : LocalKeyStore),
        runLocal lw cs = .ret lw1 ∧ lw1.localKey = some k1 ∧
        (k.isSet = true → k1.private_ = k.private_ ∧ k1.public_ = k.public_) ∧
        (k.isSet = false → ∀ priv pub, firstKeyPair cs = some (priv, pub) →
          k1.private_ = priv ∧ k1.public_ = pub) := by
  induction cs with
  | nil =>
    intro lw k hk _
    exact ⟨lw, k, rfl, hk, fun _ => ⟨rfl, rfl⟩, fun _ _ _ h => by simp [firstKeyPair] at h⟩
  | cons c cs ih =>
    intro lw k hk honce
    cases c with
    | InitLocalKeyStore =>
      have hstep : stepLocal lw .InitLocalKeyStore = .ret lw := by
        simp [stepLocal, InitLocalKeyStore, honce]
      obtain ⟨lw1, k1, h1, h2, h3, h4⟩ := ih lw k hk honce
      exact ⟨lw1, k1, by simp [runLocal, hstep, h1], h2, h3,
        fun hs priv pub hf => h4 hs priv pub (by simpa [firstKeyPair] using hf)⟩
    | SetLocalKeyPair priv0 pub0 =>
      by_cases hset : k.isSet = true
      · have hstep : stepLocal lw (.SetLocalKeyPair priv0 pub0) = .ret lw := by
          simp [stepLocal, SetLocalKeyPair, hk, hset]
        obtain ⟨lw1, k1, h1, h2, h3, -⟩ := ih lw k hk honce
        exact ⟨lw1, k1, by simp [runLocal, hstep, h1], h2, h3, fun hs => by simp [hset] at hs⟩
      · have hstep : stepLocal lw (.SetLocalKeyPair priv0 pub0) =
            .ret ⟨some { k with isSet := true, private_ := priv0, public_ := pub0 },
              lw.localKeyOnce⟩ := by
          simp [stepLocal, SetLocalKeyPair, hk, hset]
        obtain ⟨lw1, k1, h1, h2, h3, -⟩ :=
          ih ⟨some { k with isSet := true, private_ := priv0, public_ := pub0 }, lw.localKeyOnce⟩
            { k with isSet := true, private_ := priv0, public_ := pub0 } rfl honce
        refine ⟨lw1, k1, by simp [runLocal, hstep, h1], h2, fun hs => absurd hs hset, ?_⟩
        intro _ priv pub hf
        simp only [firstKeyPair, Option.some.injEq, Prod.mk.injEq] at hf
        rw [← hf.1, ← hf.2]
        exact h3 rfl
    | SetLocalNodeIDNonce rawNodeID nonce =>
      cases nonce with
      | none =>
        have hstep : stepLocal lw (.SetLocalNodeIDNonce rawNodeID none) =
            .ret { lw with localKey := some { k with nodeID := some rawNodeID } } := by
          simp [stepLocal, SetLocalNodeIDNonce, hk]
        obtain ⟨lw1, k1, h1, h2, h3, h4⟩ :=
          ih { lw with localKey := some { k with nodeID := some rawNodeID } }
            { k with nodeID := some rawNodeID } rfl honce
        exact ⟨lw1, k1, by simp [runLocal, hstep, h1], h2, h3,
          fun hs priv pub hf => h4 hs priv pub (by simpa [firstKeyPair] using hf)⟩
      | some n =>
        have hstep : stepLocal lw (.SetLocalNodeIDNonce rawNodeID (some n)) =
            .ret ⟨some { k with nodeID := some rawNodeID, nodeNonce := some n },
              lw.localKeyOnce⟩ := by
          simp [stepLocal, SetLocalNodeIDNonce, hk]
        obtain ⟨lw1, k1, h1, h2, h3, h4⟩ :=
          ih ⟨some { k with nodeID := some rawNodeID, nodeNonce := some n }, lw.localKeyOnce⟩
            { k with nodeID := some rawNodeID, nodeNonce := some n } rfl honce
        exact ⟨lw1, k1, by simp [runLocal, hstep, h1], h2, h3,
          fun hs priv pub hf => h4 hs priv pub (by simpa [firstKeyPair] using hf)⟩
    | GetLocalNodeID =>
      have hstep : stepLocal lw .GetLocalNodeID = .ret lw := by
        simp only [stepLocal, GetLocalNodeID, hk]
        cases k.nodeID <;> rfl
      obtain ⟨lw1, k1, h1, h2, h3, h4⟩ := ih lw k hk honce
      exact ⟨lw1, k1, by simp [runLocal, hstep, h1], h2, h3,
        fun hs priv pub hf => h4 hs priv pub (by simpa [firstKeyPair] using hf)⟩
    | GetLocalNonce =>
      have hstep : stepLocal lw .GetLocalNonce = .ret lw := by
        simp only [stepLocal, GetLocalNonce, hk]
        cases k.nodeNonce <;> rfl
      obtain ⟨lw1, k1, h1, h2, h3, h4⟩ := ih lw k hk honce
      exact ⟨lw1, k1, by simp [runLocal, hstep, h1], h2, h3,
        fun hs priv pub hf => h4 hs priv pub (by simpa [firstKeyPair] using hf)⟩
    | GetLocalPublicKey =>
      have hstep : stepLocal lw .GetLocalPublicKey = .ret lw := by
        simp only [stepLocal, GetLocalPublicKey, hk]
        cases k.public_ <;> rfl
      obtain ⟨lw1, k1, h1, h2, h3, h4⟩ := ih lw k hk honce
      exact ⟨lw1, k1, by simp [runLocal, hstep, h1], h2, h3,
        fun hs priv pub hf => h4 hs priv pub (by simpa [firstKeyPair] using hf)⟩
    | GetLocalPrivateKey =>
      have hstep : stepLocal lw .GetLocalPrivateKey = .ret lw := by
        simp only [stepLocal, GetLocalPrivateKey, hk]
        cases k.private_ <;> rfl
      obtain ⟨lw1, k1, h1, h2, h3, h4⟩ := ih lw k hk honce
      exact ⟨lw1, k1, by simp [runLocal, hstep, h1], h2, h3,
        fun hs priv pub hf => h4 hs priv pub (by simpa [firstKeyPair] using hf)⟩

theorem firstKeyPair_append (pre post : List LocalCall) (priv : Option PrivateKey)
    (pub : Option PublicKey)
    (hpre : firstKeyPair pre = none) :
    firstKeyPair (pre ++ LocalCall.SetLocalKeyPair priv pub :: post) = some (priv, pub) := by
  induction pre with
  | nil => simp [firstKeyPair]
  | cons c pre ih =>
    cases c with
    | SetLocalKeyPair a b => simp [firstKeyPair] at hpre
    | InitLocalKeyStore => simpa [firstKeyPair] using ih (by simpa [firstKeyPair] using hpre)
    | SetLocalNodeIDNonce r n => simpa [firstKeyPair] using ih (by simpa [firstKeyPair] using hpre)
    | GetLocalNodeID => simpa [firstKeyPair] using ih (by simpa [firstKeyPair] using hpre)
    | GetLocalNonce => simpa [firstKeyPair] using ih (by simpa [firstKeyPair] using hpre)
    | GetLocalPublicKey => simpa [firstKeyPair] using ih (by simpa [firstKeyPair] using hpre)
    | GetLocalPrivateKey => simpa [firstKeyPair] using ih (by simpa [firstKeyPair] using hpre)

theorem getters_of_fields (lw : LocalWorld) (k : LocalKeyStore) (hk : lw.localKey = some k) :
    GetLocalPublicKey lw = .ret (fieldResult k.public_) ∧
      GetLocalPrivateKey lw = .ret (fieldResult k.private_) := by
  constructor
  · simp only [GetLocalPublicKey, hk]
    cases k.public_ <;> rfl
  · simp only [GetLocalPrivateKey, hk]
    cases k.private_ <;> rfl

/-- C5. On an initialised `LocalKeyStore`, take any calls `pre` without a
`SetLocalKeyPair` (`firstKeyPair pre = none`), then `SetLocalKeyPair(priv, pub)`, then any calls `post`
(later `SetLocalKeyPair` and `SetLocalNodeIDNonce` calls included): the run
returns, and afterwards `GetLocalPublicKey` and `GetLocalPrivateKey` return
`pub` and `priv` of that first call, or fail with `ErrNilField` where the first
call passed nil. -/
theorem local_key_pair_first_writer_wins (pre post : List LocalCall)
    (priv : Option PrivateKey) (pub : Option PublicKey) (hpre : firstKeyPair pre = none) :
    ∃ lw : LocalWorld,
      runLocal (InitLocalKeyStore localStart)
        (pre ++ LocalCall.SetLocalKeyPair priv pub :: post) = .ret lw ∧
      GetLocalPublicKey lw = .ret (fieldResult pub) ∧
      GetLocalPrivateKey lw = .ret (fieldResult priv) := by
  obtain ⟨lw, k, hrun, hk, -, h⟩ :=
    runLocal_key_pair (pre ++ LocalCall.SetLocalKeyPair priv pub :: post)
      (InitLocalKeyStore localStart)
      { isSet := false, private_ := none, public_ := none, nodeID := none, nodeNonce := none }
      rfl rfl
  obtain ⟨h1, h2⟩ := h rfl priv pub (firstKeyPair_append pre post priv pub hpre)
  have hg := getters_of_fields lw k hk
  rw [h1, h2] at hg
  exact ⟨lw, hrun, hg⟩

theorem local_key_pair_first_writer_wins_witness :
    firstKeyPair [.SetLocalNodeIDNonce [1, 2] none, .GetLocalPublicKey] = none ∧
    (∃ lw : LocalWorld,
      runLocal (InitLocalKeyStore localStart)
        ([.SetLocalNodeIDNonce [1, 2] none, .GetLocalPublicKey] ++
          LocalCall.SetLocalKeyPair (some (PrivateKey.mk 7)) (some (PublicKey.mk 8)) ::
            [.SetLocalKeyPair (some (PrivateKey.mk 9)) (some (PublicKey.mk 10)),
              .SetLocalNodeIDNonce [3] (some (Uint256.mk 0 0 0 1)), .InitLocalKeyStore,
              .SetLocalKeyPair none none]) = .ret lw ∧
      GetLocalPublicKey lw = .ret (some (PublicKey.mk 8), none) ∧
      GetLocalPrivateKey lw = .ret (some (PrivateKey.mk 7), none)) ∧
    (∃ lw : LocalWorld,
      runLocal (InitLocalKeyStore localStart)
        ([] ++ LocalCall.SetLocalKeyPair none none ::
            [.SetLocalKeyPair (some (PrivateKey.mk 9)) (some (PublicKey.mk 10))]) = .ret lw ∧
      GetLocalPublicKey lw = .ret (none, some .ErrNilField) ∧
      GetLocalPrivateKey lw = .ret (none, some .ErrNilField)) :=
  ⟨by decide, local_key_pair_first_writer_wins _ _ _ _ (by decide),
    local_key_pair_first_writer_wins _ _ _ _ (by decide)⟩

/-! ## Block round trip -/

theorem txDataCodec_lawful (W : Wire) (hW : W.Lawful) : (txDataCodec W).Lawful :=
  Codec.imap_lawful _ _ _
    (Codec.seq_lawful _ _ hW.uint64 (Codec.seq_lawful _ _ hW.str (Codec.seq_lawful _ _ hW.bigInt
      (Codec.seq_lawful _ _ hW.bytes (Codec.seq_lawful _ _ hW.signature hW.publicKey)))))
    (fun _ => rfl)

theorem txCodec_lawful (W : Wire) (hW : W.Lawful) : (txCodec W).Lawful :=
  Codec.imap_lawful _ _ _ (Codec.seq_lawful _ _ hW.hash (txDataCodec_lawful W hW)) (fun _ => rfl)

theorem headerCodec_lawful (W : Wire) (hW : W.Lawful) : (headerCodec W).Lawful :=
  Codec.imap_lawful _ _ _
    (Codec.seq_lawful _ _ hW.version (Codec.seq_lawful _ _ hW.str (Codec.seq_lawful _ _ hW.hash
      (Codec.seq_lawful _ _ hW.hash (Codec.seq_lawful _ _ hW.hash hW.time)))))
    (fun _ => rfl)

theorem signedHeaderCodec_lawful (W : Wire) (hW : W.Lawful) : (signedHeaderCodec W).Lawful :=
  Codec.imap_lawful _ _ _
    (Codec.seq_lawful _ _ (headerCodec_lawful W hW)
      (Codec.seq_lawful _ _ hW.hash (Codec.seq_lawful _ _ hW.publicKey hW.signature)))
    (fun _ => rfl)

theorem blockCodec_lawful (W : Wire) (hW : W.Lawful) : (blockCodec W).Lawful :=
  Codec.imap_lawful _ _ _
    (Codec.seq_lawful _ _ (signedHeaderCodec_lawful W hW)
      (Codec.list_lawful _ _ hW.count (txCodec_lawful W hW)))
    (fun _ => rfl)

theorem Block_unmarshal_put (W : Wire) (hW : W.Lawful) (b : Block) :
    Block.unmarshal W ((blockCodec W).put b) = .ok b := by
  have h := blockCodec_lawful W hW b []
  simp only [List.append_nil] at h
  simp [Block.unmarshal, h]

/-- C4. For every block, void or with transactions, `marshal` succeeds and
`unmarshal` of the marshalled bytes succeeds and yields a block with the same
`Header.Header` (Version, Producer, Root, Parent, MerkleRoot, Timestamp), the
same header `Signature`, the same number of transactions and, at every index,
the same `TxHash` and transaction `Signature`. The encodings of the primitive
types are assumed to read back what they wrote. -/
theorem Block_round_trip (W : Wire) (hW : W.Lawful) (b : Block) :
    ∃ buf : Bytes, Block.marshal W b = .ok buf ∧
      ∃ b1 : Block, Block.unmarshal W buf = .ok b1 ∧
        b1.Header.Header = b.Header.Header ∧
        b1.Header.Signature = b.Header.Signature ∧
        b1.Tx.length = b.Tx.length ∧
        ∀ i : Nat, (b1.Tx[i]?).map (fun t => (t.TxHash, t.TxData.Signature)) =
          (b.Tx[i]?).map (fun t => (t.TxHash, t.TxData.Signature)) :=
  ⟨(blockCodec W).put b, rfl, b, Block_unmarshal_put W hW b, rfl, rfl, rfl, fun _ => rfl⟩

theorem Block_round_trip_witness :
    toyWire.Lawful ∧
    Block.unmarshal toyWire ((blockCodec toyWire).put voidBlock) = .ok voidBlock ∧
    Block.unmarshal toyWire ((blockCodec toyWire).put block) = .ok block ∧
    Block.unmarshal toyWire (((blockCodec toyWire).put block).dropLast) =
      .error (.other "malformed block") ∧
    (∃ buf : Bytes, Block.marshal toyWire block = .ok buf ∧
      ∃ b1 : Block, Block.unmarshal toyWire buf = .ok b1 ∧
        b1.Header.Header = block.Header.Header ∧
        b1.Header.Signature = block.Header.Signature ∧
        b1.Tx.length = block.Tx.length ∧
        ∀ i : Nat, (b1.Tx[i]?).map (fun t => (t.TxHash, t.TxData.Signature)) =
          (block.Tx[i]?).map (fun t => (t.TxHash, t.TxData.Signature))) :=
  ⟨toyWire_lawful, by decide, by decide, by decide, Block_round_trip toyWire toyWire_lawful block⟩

/-! ## Nil records and the test flag -/

theorem setNode_commits (x : Ext) (w : World) (n : Node) (p : PublicKeyStore) (b : Bucket)
    (buf : Bytes) (hp : w.pks = some p) (hname : p.bucket = some kmsBucketName)
    (hb : txBucket p.db p.bucket = some b) (henc : x.Encode n = .ok buf)
    (hk0 : n.ID.utf8ByteSize ≠ 0) (hk1 : n.ID.utf8ByteSize ≤ MaxKeySize)
    (hv : buf.length ≤ MaxValueSize) :
    setNode x w n =
      .ret (none, { w with pks := some { p with
        db := kvPut p.db kmsBucketName (kvPut b n.ID buf) } }) := by
  rw [hname] at hb
  have hput : bucketPut b n.ID buf = .ok (kvPut b n.ID buf) := by
    simp [bucketPut, hk0, Nat.not_lt.mpr hk1, Nat.not_lt.mpr hv]
  simp [setNode, henc, hp, hname, hb, hput]

/-- C6. `SetNode` returns `ErrNilNode` and leaves the world as it found it when
the record is nil, whatever the `Unittest` flag, and when the record's
`PublicKey` is nil while `Unittest` is false. With `Unittest` true a non-nil
record goes straight to the unchecked `setNode`, neither check made: on an open
bucket, once the codec has encoded it and the store takes the key and value, it
is committed under its ID. -/
theorem SetNode_nil_and_unittest (x : Ext) (w : World) :
    SetNode x w none = .ret (some .ErrNilNode, w) ∧
    (∀ n : Node, w.Unittest = false → n.PublicKey = none →
      SetNode x w (some n) = .ret (some .ErrNilNode, w)) ∧
    (∀ n : Node, w.Unittest = true → SetNode x w (some n) = setNode x w n) ∧
    (∀ (n : Node) (p : PublicKeyStore) (b : Bucket) (buf : Bytes),
      w.Unittest = true → w.pks = some p → p.bucket = some kmsBucketName →
      txBucket p.db p.bucket = some b → x.Encode n = .ok buf →
      n.ID.utf8ByteSize ≠ 0 → n.ID.utf8ByteSize ≤ MaxKeySize → buf.length ≤ MaxValueSize →
      ∃ (w1 : World) (p1 : PublicKeyStore) (b1 : Bucket),
        SetNode x w (some n) = .ret (none, w1) ∧ w1.pks = some p1 ∧
        txBucket p1.db p1.bucket = some b1 ∧ kvGet b1 n.ID = some buf) := by
  refine ⟨by simp [SetNode], ?_, ?_, ?_⟩
  · intro n hU hpk
    simp [SetNode, hU, hpk]
  · intro n hU
    simp [SetNode, hU]
  · intro n p b buf hU hp hname hb henc hk0 hk1 hv
    refine ⟨{ w with pks := some { p with db := kvPut p.db kmsBucketName (kvPut b n.ID buf) } },
      { p with db := kvPut p.db kmsBucketName (kvPut b n.ID buf) }, kvPut b n.ID buf,
      ?_, rfl, ?_, kvGet_kvPut_same _ _ _⟩
    · have h1 : SetNode x w (some n) = setNode x w n := by simp [SetNode, hU]
      rw [h1]
      exact setNode_commits x w n p b buf hp hname hb henc hk0 hk1 hv
    · simp [txBucket, hname, kvGet_kvPut_same]

theorem SetNode_nil_and_unittest_witness :
    SetNode toyExt (openEmpty false) (some keylessNode) =
      .ret (some .ErrNilNode, openEmpty false) ∧
    SetNode toyExt (openEmpty true) (some keylessNode) = setNode toyExt (openEmpty true) keylessNode ∧
    (∃ (w1 : World) (p1 : PublicKeyStore) (b1 : Bucket),
      SetNode toyExt (openEmpty true) (some keylessNode) = .ret (none, w1) ∧ w1.pks = some p1 ∧
      txBucket p1.db p1.bucket = some b1 ∧
      kvGet b1 keylessNode.ID = some (nodeC.put keylessNode)) :=
  ⟨(SetNode_nil_and_unittest toyExt (openEmpty false)).2.1 keylessNode rfl rfl,
    (SetNode_nil_and_unittest toyExt (openEmpty true)).2.2.1 keylessNode rfl,
    (SetNode_nil_and_unittest toyExt (openEmpty true)).2.2.2 keylessNode
      { db := [(kmsBucketName, [])], bucket := some kmsBucketName } [] (nodeC.put keylessNode)
      rfl rfl rfl (by decide) rfl (by decide) (by decide) (by decide)⟩

/-! ## The unopened directory -/

/-- C7, as the claim states it, fails: before `InitPublicKeyStore` was ever
called `GetNodeInfo` panics on the nil `pks`; it returns no error value. -/
theorem GetNodeInfo_unopened_panics :
    GetNodeInfo toyExt unopened "ab" = .panic ∧
    ¬ ∃ node, GetNodeInfo toyExt unopened "ab" = .ret (node, some .ErrBucketNotInitialized) := by
  constructor
  · rfl
  · rintro ⟨node, h⟩
    simp [GetNodeInfo, unopened] at h

/-- C7, amended. `GetNodeInfo` panics when `pks` is nil (the directory was never
initialised); on an initialised directory whose bucket is absent, as it is after
a successful `removeBucket`, it returns `ErrBucketNotInitialized` and no
record. -/
theorem GetNodeInfo_without_bucket (x : Ext) (w : World) (id : NodeID) :
    (w.pks = none → GetNodeInfo x w id = .panic) ∧
    (∀ p : PublicKeyStore, w.pks = some p → txBucket p.db p.bucket = none →
      GetNodeInfo x w id = .ret (none, some .ErrBucketNotInitialized)) ∧
    (∀ w0 : World, removeBucket w0 = .ret (none, w) →
      GetNodeInfo x w id = .ret (none, some .ErrBucketNotInitialized)) := by
  refine ⟨?_, ?_, ?_⟩
  · intro h
    simp [GetNodeInfo, h]
  · intro p hp hb
    simp [GetNodeInfo, hp, hb]
  · intro w0 h
    unfold removeBucket at h
    split at h
    · simp at h
    · split at h
      · simp at h
      · simp at h
        simp [GetNodeInfo, ← h, txBucket]

theorem GetNodeInfo_without_bucket_witness :
    unopened.pks = none ∧ GetNodeInfo toyExt unopened "ab" = .panic ∧
    removeBucket (openWith false [("ab", nodeC.put goodNode)]) =
      .ret (none, { pks := some { db := [], bucket := none }, Unittest := false }) ∧
    GetNodeInfo toyExt { pks := some { db := [], bucket := none }, Unittest := false } "ab" =
      .ret (none, some .ErrBucketNotInitialized) :=
  ⟨rfl, (GetNodeInfo_without_bucket toyExt unopened "ab").1 rfl, by decide,
    (GetNodeInfo_without_bucket toyExt
      { pks := some { db := [], bucket := none }, Unittest := false } "ab").2.2
      (openWith false [("ab", nodeC.put goodNode)]) (by decide)⟩

/-! ## Deleting -/

/-- C8. On an open bucket `DelNode(id)` returns no error for every `id`, stored
or not; afterwards `GetNodeInfo(id)` fails with `ErrKeyNotFound`,
`GetNodeInfo` of every other id returns what it returned before, and a second
`DelNode(id)` again returns no error and leaves the world as it is. -/
theorem DelNode_idempotent (x : Ext) (w : World) (p : PublicKeyStore) (b : Bucket)
    (id : NodeID) (hp : w.pks = some p) (hb : txBucket p.db p.bucket = some b) :
    ∃ w1 : World, DelNode w id = .ret (none, w1) ∧
      GetNodeInfo x w1 id = .ret (none, some .ErrKeyNotFound) ∧
      (∀ j : NodeID, j ≠ id → GetNodeInfo x w1 j = GetNodeInfo x w j) ∧
      DelNode w1 id = .ret (none, w1) := by
  cases hname : p.bucket with
  | none => simp [txBucket, hname] at hb
  | some name =>
    rw [hname] at hb
    simp only [txBucket] at hb
    refine ⟨{ w with pks := some { p with db := kvPut p.db name (kvDel b id) } }, ?_, ?_, ?_, ?_⟩
    · simp [DelNode, hp, hname, txBucket, hb, bucketDelete]
    · simp [GetNodeInfo, txBucket, hname, kvGet_kvPut_same, kvGet_kvDel_same]
    · intro j hj
      simp [GetNodeInfo, txBucket, hname, kvGet_kvPut_same, kvGet_kvDel_other _ _ _ hj, hp, hb]
    · simp [DelNode, txBucket, hname, kvGet_kvPut_same, bucketDelete, kvDel_kvDel_same,
        kvPut_kvPut_same]

theorem DelNode_idempotent_witness :
    (openWith false [("ab", nodeC.put goodNode), ("zz", nodeC.put badNode)]).pks =
      some { db := [("kms", [("ab", nodeC.put goodNode), ("zz", nodeC.put badNode)])],
             bucket := some "kms" } ∧
    DelNode (openWith false [("ab", nodeC.put goodNode), ("zz", nodeC.put badNode)]) "ab" =
      .ret (none, openWith false [("zz", nodeC.put badNode)]) ∧
    DelNode (openWith false [("zz", nodeC.put badNode)]) "ab" =
      .ret (none, openWith false [("zz", nodeC.put badNode)]) ∧
    GetNodeInfo toyExt (openWith false [("zz", nodeC.put badNode)]) "zz" =
      .ret (some badNode, none) ∧
    ∃ w1 : World,
      DelNode (openWith false [("ab", nodeC.put goodNode), ("zz", nodeC.put badNode)]) "ab" =
        .ret (none, w1) ∧
      GetNodeInfo toyExt w1 "ab" = .ret (none, some .ErrKeyNotFound) ∧
      (∀ j : NodeID, j ≠ "ab" → GetNodeInfo toyExt w1 j =
        GetNodeInfo toyExt
          (openWith false [("ab", nodeC.put goodNode), ("zz", nodeC.put badNode)]) j) ∧
      DelNode w1 "ab" = .ret (none, w1) :=
  ⟨rfl, by decide, by decide, by decide,
    DelNode_idempotent toyExt
      (openWith false [("ab", nodeC.put goodNode), ("zz", nodeC.put badNode)])
      { db := [("kms", [("ab", nodeC.put goodNode), ("zz", nodeC.put badNode)])],
        bucket := some "kms" }
      [("ab", nodeC.put goodNode), ("zz", nodeC.put badNode)] "ab" rfl (by decide)⟩

/-! ## Resetting -/

theorem ResetBucket_result (w : World) (p : PublicKeyStore) (hp : w.pks = some p) :
    ResetBucket w =
      .ret (none, { w with pks := some { db := kvPut (kvDel p.db kmsBucketName) kmsBucketName [],
                                         bucket := some kmsBucketName } }) := by
  cases hb : kvGet p.db kmsBucketName with
  | none =>
    have hdel : ∀ db : DB, kvGet db kmsBucketName = none → kvDel db kmsBucketName = db := by
      intro db
      induction db with
      | nil => intro _; rfl
      | cons e rest ih =>
        obtain ⟨k1, v1⟩ := e
        intro h
        by_cases h1 : kmsBucketName = k1
        · simp [kvGet, h1] at h
        · simp only [kvGet, h1, if_false] at h
          simp [kvDel, h1, ih h]
    simp [ResetBucket, removeBucket, hp, txDeleteBucket, hb, txCreateBucketIfNotExists,
      kmsBucketName_size, hdel p.db hb]
  | some b =>
    simp [ResetBucket, removeBucket, hp, txDeleteBucket, hb, txCreateBucketIfNotExists,
      kmsBucketName_size, kvGet_kvDel_same]

/-- C9. On an initialised directory, whatever its bucket holds and whether or
not the bucket was removed before, once `ResetBucket` has returned no error the
bucket is open and empty: `GetAllNodeID` returns no error and no IDs, and
`GetNodeInfo(id)` fails with `ErrKeyNotFound` for every `id`. -/
theorem ResetBucket_empties (x : Ext) (w w1 : World) (p : PublicKeyStore)
    (hp : w.pks = some p) (h : ResetBucket w = .ret (none, w1)) :
    GetAllNodeID w1 = .ret ([], none) ∧
    ∀ id : NodeID, GetNodeInfo x w1 id = .ret (none, some .ErrKeyNotFound) := by
  rw [ResetBucket_result w p hp] at h
  simp only [Go.ret.injEq, Prod.mk.injEq, true_and] at h
  subst h
  constructor
  · simp [GetAllNodeID, txBucket, kvGet_kvPut_same]
  · intro id
    simp [GetNodeInfo, txBucket, kvGet_kvPut_same, kvGet]

theorem ResetBucket_empties_witness :
    ResetBucket (openWith false [("ab", nodeC.put goodNode), ("zz", nodeC.put badNode)]) =
      .ret (none, openEmpty false) ∧
    ResetBucket { pks := some { db := [], bucket := none }, Unittest := false } =
      .ret (none, openEmpty false) ∧
    GetAllNodeID (openWith false [("ab", nodeC.put goodNode), ("zz", nodeC.put badNode)]) =
      .ret (["ab", "zz"], none) ∧
    GetAllNodeID (openEmpty false) = .ret ([], none) ∧
    ∀ id : NodeID, GetNodeInfo toyExt (openEmpty false) id = .ret (none, some .ErrKeyNotFound) :=
  ⟨by decide, by decide, by decide,
    (ResetBucket_empties toyExt
      (openWith false [("ab", nodeC.put goodNode), ("zz", nodeC.put badNode)]) (openEmpty false)
      { db := [("kms", [("ab", nodeC.put goodNode), ("zz", nodeC.put badNode)])],
        bucket := some "kms" } rfl (by decide)).1,
    (ResetBucket_empties toyExt
      (openWith false [("ab", nodeC.put goodNode), ("zz", nodeC.put badNode)]) (openEmpty false)
      { db := [("kms", [("ab", nodeC.put goodNode), ("zz", nodeC.put badNode)])],
        bucket := some "kms" } rfl (by decide)).2⟩

/-! ## The bootstrap node -/

/-- C10. `InitPublicKeyStore` hands a non-nil bootstrap record to the unchecked
`setNode` on the freshly opened bucket, with no binding check, whatever the
record's ID, key and nonce and whatever `Unittest`; when it returns no error the
record is stored under its ID and `GetNodeInfo(record.ID)` returns it. The codec
is assumed to decode what it encoded. -/
theorem InitPublicKeyStore_bootstrap (x : Ext) (hx : x.RoundTrip) (w w1 : World)
    (opened : Except String DB) (r : Node)
    (h : InitPublicKeyStore x w opened (some r) = .ret (none, w1)) :
    (∃ bdb db1 : DB, opened = .ok bdb ∧ txCreateBucketIfNotExists bdb kmsBucketName = .ok db1 ∧
      InitPublicKeyStore x w opened (some r) =
        setNode x { w with pks := some { db := db1, bucket := some kmsBucketName } } r) ∧
    GetNodeInfo x w1 r.ID = .ret (some r, none) := by
  cases opened with
  | error msg => simp [InitPublicKeyStore] at h
  | ok bdb =>
    cases hc : txCreateBucketIfNotExists bdb kmsBucketName with
    | error e => simp [InitPublicKeyStore, hc] at h
    | ok db1 =>
      have heq : InitPublicKeyStore x w (.ok bdb) (some r) =
          setNode x { w with pks := some { db := db1, bucket := some kmsBucketName } } r := by
        simp [InitPublicKeyStore, hc]
      refine ⟨⟨bdb, db1, rfl, hc, heq⟩, ?_⟩
      rw [heq] at h
      obtain ⟨p, name, b, buf, -, hname, -, henc, -, hw1⟩ := setNode_ok x _ w1 r h
      rw [hw1]
      exact GetNodeInfo_after_put x hx _ p name b buf r hname henc

theorem InitPublicKeyStore_bootstrap_witness :
    toyExt.RoundTrip ∧
    toyExt.NewHashFromStr keylessNode.ID = none ∧
    SetNode toyExt (openEmpty false) (some badNode) =
      .ret (some .ErrNodeIDKeyNonceNotMatch, openEmpty false) ∧
    InitPublicKeyStore toyExt unopened (.ok []) (some badNode) =
      .ret (none, openWith false [("zz", nodeC.put badNode)]) ∧
    GetNodeInfo toyExt (openWith false [("zz", nodeC.put badNode)]) badNode.ID =
      .ret (some badNode, none) ∧
    InitPublicKeyStore toyExt unopened (.ok []) (some keylessNode) =
      .ret (none, openWith false [(keylessNode.ID, nodeC.put keylessNode)]) ∧
    GetNodeInfo toyExt (openWith false [(keylessNode.ID, nodeC.put keylessNode)]) keylessNode.ID =
      .ret (some keylessNode, none) :=
  ⟨toyExt_roundTrip, by decide, by decide, by decide,
    (InitPublicKeyStore_bootstrap toyExt toyExt_roundTrip unopened
      (openWith false [("zz", nodeC.put badNode)]) (.ok []) badNode (by decide)).2,
    by decide,
    (InitPublicKeyStore_bootstrap toyExt toyExt_roundTrip unopened
      (openWith false [(keylessNode.ID, nodeC.put keylessNode)]) (.ok []) keylessNode
      (by decide)).2⟩

/-! ## The local node ID and nonce -/

theorem runLocal_append (a b : List LocalCall) : ∀ lw : LocalWorld,
    runLocal lw (a ++ b) =
      match runLocal lw a with
      | .panic => .panic
      | .ret lw1 => runLocal lw1 b := by
  induction a with
  | nil => intro lw; rfl
  | cons c a ih =>
    intro lw
    simp only [List.cons_append, runLocal]
    cases stepLocal lw c with
    | panic => rfl
    | ret lw1 => exact ih lw1

theorem stepLocal_id_nonce (lw : LocalWorld) (k : LocalKeyStore) (c : LocalCall)
    (hk : lw.localKey = some k) (honce : lw.localKeyOnce = true) :
    ∃ (lw1 : LocalWorld) (k1 : LocalKeyStore),
      stepLocal lw c = .ret lw1 ∧ lw1.localKey = some k1 ∧ lw1.localKeyOnce = true ∧
      (setsNodeID c = false → k1.nodeID = k.nodeID) ∧
      (suppliesNonce c = false → k1.nodeNonce = k.nodeNonce) := by
  cases c with
  | InitLocalKeyStore =>
    exact ⟨lw, k, by simp [stepLocal, InitLocalKeyStore, honce], hk, honce, fun _ => rfl,
      fun _ => rfl⟩
  | SetLocalKeyPair priv pub =>
    by_cases hset : k.isSet = true
    · exact ⟨lw, k, by simp [stepLocal, SetLocalKeyPair, hk, hset], hk, honce, fun _ => rfl,
        fun _ => rfl⟩
    · exact ⟨⟨some { k with isSet := true, private_ := priv, public_ := pub }, lw.localKeyOnce⟩,
        { k with isSet := true, private_ := priv, public_ := pub },
        by simp [stepLocal, SetLocalKeyPair, hk, hset], rfl, honce, fun _ => rfl, fun _ => rfl⟩
  | SetLocalNodeIDNonce rawNodeID nonce =>
    cases nonce with
    | none =>
      exact ⟨⟨some { k with nodeID := some rawNodeID }, lw.localKeyOnce⟩,
        { k with nodeID := some rawNodeID }, by simp [stepLocal, SetLocalNodeIDNonce, hk], rfl,
        honce, fun h => by simp [setsNodeID] at h, fun _ => rfl⟩
    | some n =>
      exact ⟨⟨some { k with nodeID := some rawNodeID, nodeNonce := some n }, lw.localKeyOnce⟩,
        { k with nodeID := some rawNodeID, nodeNonce := some n },
        by simp [stepLocal, SetLocalNodeIDNonce, hk], rfl, honce,
        fun h => by simp [setsNodeID] at h, fun h => by simp [suppliesNonce] at h⟩
  | GetLocalNodeID =>
    refine ⟨lw, k, ?_, hk, honce, fun _ => rfl, fun _ => rfl⟩
    simp only [stepLocal, GetLocalNodeID, hk]
    cases k.nodeID <;> rfl
  | GetLocalNonce =>
    refine ⟨lw, k, ?_, hk, honce, fun _ => rfl, fun _ => rfl⟩
    simp only [stepLocal, GetLocalNonce, hk]
    cases k.nodeNonce <;> rfl
  | GetLocalPublicKey =>
    refine ⟨lw, k, ?_, hk, honce, fun _ => rfl, fun _ => rfl⟩
    simp only [stepLocal, GetLocalPublicKey, hk]
    cases k.public_ <;> rfl
  | GetLocalPrivateKey =>
    refine ⟨lw, k, ?_, hk, honce, fun _ => rfl, fun _ => rfl⟩
    simp only [stepLocal, GetLocalPrivateKey, hk]
    cases k.private_ <;> rfl

theorem runLocal_id_nonce (cs : List LocalCall) :
    ∀ (lw : LocalWorld) (k : LocalKeyStore), lw.localKey = some k → lw.localKeyOnce = true →
      ∃ (lw1 : LocalWorld) (k1 : LocalKeyStore),
        runLocal lw cs = .ret lw1 ∧ lw1.localKey = some k1 ∧ lw1.localKeyOnce = true ∧
        (cs.any setsNodeID = false → k1.nodeID = k.nodeID) ∧
        (cs.any suppliesNonce = false → k1.nodeNonce = k.nodeNonce) := by
  induction cs with
  | nil =>
    intro lw k hk honce
    exact ⟨lw, k, rfl, hk, honce, fun _ => rfl, fun _ => rfl⟩
  | cons c cs ih =>
    intro lw k hk honce
    obtain ⟨lw1, k1, hs, hk1, honce1, hid1, hn1⟩ := stepLocal_id_nonce lw k c hk honce
    obtain ⟨lw2, k2, hr, hk2, honce2, hid2, hn2⟩ := ih lw1 k1 hk1 honce1
    refine ⟨lw2, k2, by simp [runLocal, hs, hr], hk2, honce2, ?_, ?_⟩
    · intro h
      simp only [List.any_cons, Bool.or_eq_false_iff] at h
      rw [hid2 h.2, hid1 h.1]
    · intro h
      simp only [List.any_cons, Bool.or_eq_false_iff] at h
      rw [hn2 h.2, hn1 h.1]

theorem getters_of_id_nonce (lw : LocalWorld) (k : LocalKeyStore) (hk : lw.localKey = some k) :
    GetLocalNodeID lw = .ret (fieldResult k.nodeID) ∧
      GetLocalNonce lw = .ret (fieldResult k.nodeNonce) := by
  constructor
  · simp only [GetLocalNodeID, hk]
    cases k.nodeID <;> rfl
  · simp only [GetLocalNonce, hk]
    cases k.nodeNonce <;> rfl

theorem runLocal_after_set (pre post : List LocalCall) (rawNodeID : Bytes)
    (nonce : Option Uint256) :
    ∃ (lw : LocalWorld) (k : LocalKeyStore),
      runLocal (InitLocalKeyStore localStart)
        (pre ++ LocalCall.SetLocalNodeIDNonce rawNodeID nonce :: post) = .ret lw ∧
      lw.localKey = some k ∧
      (post.any setsNodeID = false → k.nodeID = some rawNodeID) ∧
      (post.any suppliesNonce = false → ∀ n, nonce = some n → k.nodeNonce = some n) := by
  obtain ⟨lw1, k1, hr1, hk1, honce1, -, -⟩ :=
    runLocal_id_nonce pre (InitLocalKeyStore localStart)
      { isSet := false, private_ := none, public_ := none, nodeID := none, nodeNonce := none }
      rfl rfl
  have hstep : ∃ (lw2 : LocalWorld) (k2 : LocalKeyStore),
      stepLocal lw1 (.SetLocalNodeIDNonce rawNodeID nonce) = .ret lw2 ∧
      lw2.localKey = some k2 ∧ lw2.localKeyOnce = true ∧ k2.nodeID = some rawNodeID ∧
      ∀ n, nonce = some n → k2.nodeNonce = some n := by
    cases nonce with
    | none =>
      exact ⟨⟨some { k1 with nodeID := some rawNodeID }, lw1.localKeyOnce⟩,
        { k1 with nodeID := some rawNodeID }, by simp [stepLocal, SetLocalNodeIDNonce, hk1], rfl,
        honce1, rfl, fun n h => by simp at h⟩
    | some m =>
      exact ⟨⟨some { k1 with nodeID := some rawNodeID, nodeNonce := some m }, lw1.localKeyOnce⟩,
        { k1 with nodeID := some rawNodeID, nodeNonce := some m },
        by simp [stepLocal, SetLocalNodeIDNonce, hk1], rfl, honce1, rfl,
        fun n h => by simpa using h⟩
  obtain ⟨lw2, k2, hs, hk2, honce2, hid2, hn2⟩ := hstep
  obtain ⟨lw3, k3, hr3, hk3, -, hid3, hn3⟩ := runLocal_id_nonce post lw2 k2 hk2 honce2
  refine ⟨lw3, k3, ?_, hk3, ?_, ?_⟩
  · rw [runLocal_append, hr1]
    simp [runLocal, hs, hr3]
  · intro h
    rw [hid3 h, hid2]
  · intro h n hn
    rw [hn3 h, hn2 n hn]

/-- C11. On an initialised `LocalKeyStore`, for every sequence of calls, the
run returns and afterwards: `GetLocalNodeID` fails with `ErrNilField` if the
sequence holds no `SetLocalNodeIDNonce`, and otherwise returns the `rawNodeID`
of the most recent one (no `SetLocalNodeIDNonce` after it); `GetLocalNonce`
fails with `ErrNilField` if no `SetLocalNodeIDNonce` of the sequence supplied a
non-nil nonce, and otherwise returns the nonce of the most recent call that
supplied one (calls after it, if any, passed nil). -/
theorem local_node_id_and_nonce :
    (∀ cs : List LocalCall, cs.any setsNodeID = false →
      ∃ lw : LocalWorld, runLocal (InitLocalKeyStore localStart) cs = .ret lw ∧
        GetLocalNodeID lw = .ret (none, some .ErrNilField)) ∧
    (∀ (pre post : List LocalCall) (rawNodeID : Bytes) (nonce : Option Uint256),
      post.any setsNodeID = false →
      ∃ lw : LocalWorld,
        runLocal (InitLocalKeyStore localStart)
          (pre ++ LocalCall.SetLocalNodeIDNonce rawNodeID nonce :: post) = .ret lw ∧
        GetLocalNodeID lw = .ret (some rawNodeID, none)) ∧
    (∀ cs : List LocalCall, cs.any suppliesNonce = false →
      ∃ lw : LocalWorld, runLocal (InitLocalKeyStore localStart) cs = .ret lw ∧
        GetLocalNonce lw = .ret (none, some .ErrNilField)) ∧
    (∀ (pre post : List LocalCall) (rawNodeID : Bytes) (n : Uint256),
      post.any suppliesNonce = false →
      ∃ lw : LocalWorld,
        runLocal (InitLocalKeyStore localStart)
          (pre ++ LocalCall.SetLocalNodeIDNonce rawNodeID (some n) :: post) = .ret lw ∧
        GetLocalNonce lw = .ret (some n, none)) := by
  refine ⟨?_, ?_, ?_, ?_⟩
  · intro cs hcs
    obtain ⟨lw, k, hr, hk, -, hid, -⟩ :=
      runLocal_id_nonce cs (InitLocalKeyStore localStart)
        { isSet := false, private_ := none, public_ := none, nodeID := none, nodeNonce := none }
        rfl rfl
    have hg := (getters_of_id_nonce lw k hk).1
    rw [hid hcs] at hg
    exact ⟨lw, hr, hg⟩
  · intro pre post rawNodeID nonce hpost
    obtain ⟨lw, k, hr, hk, hid, -⟩ := runLocal_after_set pre post rawNodeID nonce
    have hg := (getters_of_id_nonce lw k hk).1
    rw [hid hpost] at hg
    exact ⟨lw, hr, hg⟩
  · intro cs hcs
    obtain ⟨lw, k, hr, hk, -, -, hn⟩ :=
      runLocal_id_nonce cs (InitLocalKeyStore localStart)
        { isSet := false, private_ := none, public_ := none, nodeID := none, nodeNonce := none }
        rfl rfl
    have hg := (getters_of_id_nonce lw k hk).2
    rw [hn hcs] at hg
    exact ⟨lw, hr, hg⟩
  · intro pre post rawNodeID n hpost
    obtain ⟨lw, k, hr, hk, -, hn⟩ := runLocal_after_set pre post rawNodeID (some n)
    have hg := (getters_of_id_nonce lw k hk).2
    rw [hn hpost n rfl] at hg
    exact ⟨lw, hr, hg⟩

theorem local_node_id_and_nonce_witness :
    (∃ lw : LocalWorld,
      runLocal (InitLocalKeyStore localStart)
        [.SetLocalKeyPair (some (PrivateKey.mk 7)) (some (PublicKey.mk 8)), .GetLocalNodeID] =
        .ret lw ∧
      GetLocalNodeID lw = .ret (none, some .ErrNilField)) ∧
    (∃ lw : LocalWorld,
      runLocal (InitLocalKeyStore localStart)
        ([.SetLocalNodeIDNonce [1, 2] (some (Uint256.mk 0 0 0 5))] ++
          LocalCall.SetLocalNodeIDNonce [3, 4] none :: [.InitLocalKeyStore, .GetLocalNonce]) =
        .ret lw ∧
      GetLocalNodeID lw = .ret (some [3, 4], none)) ∧
    (∃ lw : LocalWorld,
      runLocal (InitLocalKeyStore localStart)
        [.SetLocalNodeIDNonce [1, 2] none, .SetLocalNodeIDNonce [] none] = .ret lw ∧
      GetLocalNonce lw = .ret (none, some .ErrNilField)) ∧
    (∃ lw : LocalWorld,
      runLocal (InitLocalKeyStore localStart)
        ([.SetLocalNodeIDNonce [1, 2] (some (Uint256.mk 0 0 0 5))] ++
          LocalCall.SetLocalNodeIDNonce [3, 4] (some (Uint256.mk 789554103 0 0 9)) ::
            [.SetLocalNodeIDNonce [5] none, .SetLocalKeyPair none none]) = .ret lw ∧
      GetLocalNonce lw = .ret (some (Uint256.mk 789554103 0 0 9), none)) :=
  ⟨local_node_id_and_nonce.1 _ (by decide),
    local_node_id_and_nonce.2.1 _ _ _ _ (by decide),
    local_node_id_and_nonce.2.2.1 _ (by decide),
    local_node_id_and_nonce.2.2.2 _ _ _ _ (by decide)⟩

/-! ## The bucket handle -/

theorem removeBucket_ok (w0 w1 : World) (h : removeBucket w0 = .ret (none, w1)) :
    ∃ p : PublicKeyStore, w1.pks = some p ∧ txBucket p.db p.bucket = none := by
  unfold removeBucket at h
  split at h
  · simp at h
  · split at h
    · simp at h
    · rename_i db1 _
      simp at h
      exact ⟨{ db := db1, bucket := none }, by rw [← h], rfl⟩

theorem setNode_removed (x : Ext) (w : World) (p : PublicKeyStore) (n : Node)
    (hp : w.pks = some p) (hb : txBucket p.db p.bucket = none) :
    (∀ buf, x.Encode n = .ok buf → setNode x w n = .ret (some .ErrBucketNotInitialized, w)) ∧
    ∃ e, setNode x w n = .ret (e, w) := by
  have hok : ∀ buf, x.Encode n = .ok buf →
      setNode x w n = .ret (some .ErrBucketNotInitialized, w) := by
    intro buf henc
    cases hname : p.bucket with
    | none => simp [setNode, henc, hp, hname]
    | some name =>
      rw [hname] at hb
      simp [setNode, henc, hp, hname, hb]
  refine ⟨hok, ?_⟩
  cases henc : x.Encode n with
  | error msg => exact ⟨some (.other msg), by simp [setNode, henc]⟩
  | ok buf => exact ⟨some .ErrBucketNotInitialized, hok buf henc⟩

theorem SetNode_removed (x : Ext) (w : World) (p : PublicKeyStore) (nodeInfo : Option Node)
    (hp : w.pks = some p) (hb : txBucket p.db p.bucket = none) :
    ∃ e, SetNode x w nodeInfo = .ret (e, w) := by
  cases nodeInfo with
  | none => exact ⟨some .ErrNilNode, by simp [SetNode]⟩
  | some n =>
    obtain ⟨e, he⟩ := (setNode_removed x w p n hp hb).2
    cases hU : w.Unittest with
    | true => exact ⟨e, by simp [SetNode, hU, he]⟩
    | false =>
      cases hpk : n.PublicKey with
      | none => exact ⟨some .ErrNilNode, by simp [SetNode, hU, hpk]⟩
      | some pk =>
        cases hparse : x.NewHashFromStr n.ID with
        | none => exact ⟨some .ErrNotValidNodeID, by simp [SetNode, hU, hpk, hparse]⟩
        | some hh =>
          by_cases heq : x.HashBlock (x.Serialize pk) n.Nonce = hh
          · exact ⟨e, by simp [SetNode, hU, hpk, hparse, heq, he]⟩
          · exact ⟨some .ErrNodeIDKeyNonceNotMatch, by simp [SetNode, hU, hpk, hparse, heq]⟩

theorem DelNode_removed (w : World) (p : PublicKeyStore) (id : NodeID)
    (hp : w.pks = some p) (hb : txBucket p.db p.bucket = none) :
    DelNode w id = .ret (some .ErrBucketNotInitialized, w) := by
  cases hname : p.bucket with
  | none => simp [DelNode, hp, hname]
  | some name =>
    rw [hname] at hb
    simp [DelNode, hp, hname, hb]

theorem runOps_removed (x : Ext) (w : World) (p : PublicKeyStore) (hp : w.pks = some p)
    (hb : txBucket p.db p.bucket = none) (ops : List Op) (hops : ops.any isReset = false) :
    runOps x w ops = .ret w := by
  induction ops with
  | nil => rfl
  | cons op ops ih =>
    simp only [List.any_cons, Bool.or_eq_false_iff] at hops
    have hstep : ∃ e, stepOp x w op = .ret (e, w) := by
      cases op with
      | SetNode nodeInfo => exact SetNode_removed x w p nodeInfo hp hb
      | SetPublicKey id nonce publicKey =>
        exact SetNode_removed x w p
          (some { ID := id, Addr := "", PublicKey := publicKey, Nonce := nonce }) hp hb
      | DelNode id => exact ⟨_, DelNode_removed w p id hp hb⟩
      | ResetBucket => simp [isReset] at hops
    obtain ⟨e, he⟩ := hstep
    simp [runOps, he, ih hops.2]

theorem setNode_open (x : Ext) (w : World) (n : Node) (hw : BucketOpen w) :
    ∃ e w1, setNode x w n = .ret (e, w1) ∧ BucketOpen w1 ∧
      e ≠ some .ErrBucketNotInitialized := by
  obtain ⟨p, name, b, hp, hname, hb⟩ := hw
  cases henc : x.Encode n with
  | error msg =>
    exact ⟨some (.other msg), w, by simp [setNode, henc], ⟨p, name, b, hp, hname, hb⟩, by simp⟩
  | ok buf =>
    cases hput : bucketPut b n.ID buf with
    | error e =>
      refine ⟨some e, w, by simp [setNode, henc, hp, hname, txBucket, hb, hput],
        ⟨p, name, b, hp, hname, hb⟩, ?_⟩
      rcases bucketPut_error_cases _ _ _ _ hput with h | h | h <;> simp [h]
    | ok b1 =>
      exact ⟨none, { w with pks := some { p with db := kvPut p.db name b1 } },
        by simp [setNode, henc, hp, hname, txBucket, hb, hput],
        ⟨{ p with db := kvPut p.db name b1 }, name, b1, rfl, hname, kvGet_kvPut_same _ _ _⟩,
        by simp⟩

theorem SetNode_open (x : Ext) (w : World) (nodeInfo : Option Node) (hw : BucketOpen w) :
    ∃ e w1, SetNode x w nodeInfo = .ret (e, w1) ∧ BucketOpen w1 ∧
      e ≠ some .ErrBucketNotInitialized := by
  cases nodeInfo with
  | none => exact ⟨some .ErrNilNode, w, by simp [SetNode], hw, by simp⟩
  | some n =>
    obtain ⟨e, w1, he, hw1, hne⟩ := setNode_open x w n hw
    cases hU : w.Unittest with
    | true => exact ⟨e, w1, by simp [SetNode, hU, he], hw1, hne⟩
    | false =>
      cases hpk : n.PublicKey with
      | none => exact ⟨some .ErrNilNode, w, by simp [SetNode, hU, hpk], hw, by simp⟩
      | some pk =>
        cases hparse : x.NewHashFromStr n.ID with
        | none =>
          exact ⟨some .ErrNotValidNodeID, w, by simp [SetNode, hU, hpk, hparse], hw, by simp⟩
        | some hh =>
          by_cases heq : x.HashBlock (x.Serialize pk) n.Nonce = hh
          · exact ⟨e, w1, by simp [SetNode, hU, hpk, hparse, heq, he], hw1, hne⟩
          · exact ⟨some .ErrNodeIDKeyNonceNotMatch, w,
              by simp [SetNode, hU, hpk, hparse, heq], hw, by simp⟩

theorem DelNode_open (w : World) (id : NodeID) (hw : BucketOpen w) :
    ∃ w1, DelNode w id = .ret (none, w1) ∧ BucketOpen w1 := by
  obtain ⟨p, name, b, hp, hname, hb⟩ := hw
  exact ⟨{ w with pks := some { p with db := kvPut p.db name (kvDel b id) } },
    by simp [DelNode, hp, hname, txBucket, hb, bucketDelete],
    ⟨{ p with db := kvPut p.db name (kvDel b id) }, name, kvDel b id, rfl, hname,
      kvGet_kvPut_same _ _ _⟩⟩

theorem ResetBucket_open (w : World) (p : PublicKeyStore) (hp : w.pks = some p) :
    ∃ w1, ResetBucket w = .ret (none, w1) ∧ BucketOpen w1 :=
  ⟨_, ResetBucket_result w p hp,
    ⟨_, kmsBucketName, [], rfl, rfl, kvGet_kvPut_same _ _ _⟩⟩

theorem runOps_open (x : Ext) (ops : List Op) :
    ∀ w, BucketOpen w → ∃ w1, runOps x w ops = .ret w1 ∧ BucketOpen w1 := by
  induction ops with
  | nil => intro w hw; exact ⟨w, rfl, hw⟩
  | cons op ops ih =>
    intro w hw
    have hstep : ∃ e w1, stepOp x w op = .ret (e, w1) ∧ BucketOpen w1 := by
      cases op with
      | SetNode nodeInfo =>
        obtain ⟨e, w1, h1, h2, -⟩ := SetNode_open x w nodeInfo hw
        exact ⟨e, w1, h1, h2⟩
      | SetPublicKey id nonce publicKey =>
        obtain ⟨e, w1, h1, h2, -⟩ := SetNode_open x w
          (some { ID := id, Addr := "", PublicKey := publicKey, Nonce := nonce }) hw
        exact ⟨e, w1, h1, h2⟩
      | DelNode id =>
        obtain ⟨w1, h1, h2⟩ := DelNode_open w id hw
        exact ⟨none, w1, h1, h2⟩
      | ResetBucket =>
        obtain ⟨p, -, -, hp, -, -⟩ := hw
        obtain ⟨w1, h1, h2⟩ := ResetBucket_open w p hp
        exact ⟨none, w1, h1, h2⟩
    obtain ⟨e, w1, h1, h2⟩ := hstep
    obtain ⟨w2, h3, h4⟩ := ih w1 h2
    exact ⟨w2, by simp [runOps, h1, h3], h4⟩

theorem getters_open (x : Ext) (w : World) (hw : BucketOpen w) :
    (∀ id : NodeID, ∃ node e, GetNodeInfo x w id = .ret (node, e) ∧
      e ≠ some .ErrBucketNotInitialized) ∧
    ∃ ids, GetAllNodeID w = .ret (ids, none) := by
  obtain ⟨p, name, b, hp, hname, hb⟩ := hw
  constructor
  · intro id
    cases hget : kvGet b id with
    | none =>
      exact ⟨none, some .ErrKeyNotFound, by simp [GetNodeInfo, hp, hname, txBucket, hb, hget],
        by simp⟩
    | some v =>
      refine ⟨some (x.Decode v).1, (x.Decode v).2.map Err.other,
        by simp [GetNodeInfo, hp, hname, txBucket, hb, hget], ?_⟩
      cases (x.Decode v).2 <;> simp
  · exact ⟨b.map Prod.fst, by simp [GetAllNodeID, hp, hname, txBucket, hb]⟩

/-- C12. After `removeBucket` has succeeded, every call of `GetNodeInfo`,
`GetAllNodeID`, `DelNode` and, for a record that passes validation and that the
codec encodes, `SetNode` fails with `ErrBucketNotInitialized`, for every
argument, and leaves the world as it is; so it stays after any sequence of
directory calls without a `ResetBucket`. Once `ResetBucket` has returned no
error, and after any further directory calls, each of these operations returns
and its error is not `ErrBucketNotInitialized`. -/
theorem bucket_handle_state_machine (x : Ext) (w0 w1 : World)
    (h : removeBucket w0 = .ret (none, w1)) :
    (∀ ops : List Op, ops.any isReset = false → runOps x w1 ops = .ret w1) ∧
    (∀ id : NodeID, GetNodeInfo x w1 id = .ret (none, some .ErrBucketNotInitialized)) ∧
    GetAllNodeID w1 = .ret ([], some .ErrBucketNotInitialized) ∧
    (∀ id : NodeID, DelNode w1 id = .ret (some .ErrBucketNotInitialized, w1)) ∧
    (∀ (n : Node) (buf : Bytes), x.Encode n = .ok buf →
      (w1.Unittest = true ∨ ∃ pk hh, n.PublicKey = some pk ∧ x.NewHashFromStr n.ID = some hh ∧
        x.HashBlock (x.Serialize pk) n.Nonce = hh) →
      SetNode x w1 (some n) = .ret (some .ErrBucketNotInitialized, w1)) ∧
    (∀ w2 : World, ResetBucket w1 = .ret (none, w2) → ∀ ops : List Op,
      ∃ w3 : World, runOps x w2 ops = .ret w3 ∧
        (∀ id : NodeID, ∃ node e, GetNodeInfo x w3 id = .ret (node, e) ∧
          e ≠ some .ErrBucketNotInitialized) ∧
        (∃ ids, GetAllNodeID w3 = .ret (ids, none)) ∧
        (∀ id : NodeID, ∃ w4, DelNode w3 id = .ret (none, w4)) ∧
        (∀ nodeInfo : Option Node, ∃ e w4, SetNode x w3 nodeInfo = .ret (e, w4) ∧
          e ≠ some .ErrBucketNotInitialized)) := by
  obtain ⟨p, hp, hb⟩ := removeBucket_ok w0 w1 h
  refine ⟨fun ops hops => runOps_removed x w1 p hp hb ops hops, ?_, ?_, ?_, ?_, ?_⟩
  · intro id
    simp [GetNodeInfo, hp, hb]
  · simp [GetAllNodeID, hp, hb]
  · intro id
    exact DelNode_removed w1 p id hp hb
  · intro n buf henc hv
    have hset := (setNode_removed x w1 p n hp hb).1 buf henc
    rcases hv with hU | ⟨pk, hh, hpk, hparse, heq⟩
    · simp [SetNode, hU, hset]
    · cases hU : w1.Unittest with
      | true => simp [SetNode, hU, hset]
      | false => simp [SetNode, hU, hpk, hparse, heq, hset]
  · intro w2 hreset ops
    obtain ⟨w2a, hr, hopen⟩ := ResetBucket_open w1 p hp
    rw [hreset] at hr
    simp only [Go.ret.injEq, Prod.mk.injEq, true_and] at hr
    subst hr
    obtain ⟨w3, hrun, hopen3⟩ := runOps_open x ops w2 hopen
    refine ⟨w3, hrun, (getters_open x w3 hopen3).1, (getters_open x w3 hopen3).2, ?_, ?_⟩
    · intro id
      obtain ⟨w4, h4, -⟩ := DelNode_open w3 id hopen3
      exact ⟨w4, h4⟩
    · intro nodeInfo
      obtain ⟨e, w4, h4, -, hne⟩ := SetNode_open x w3 nodeInfo hopen3
      exact ⟨e, w4, h4, hne⟩

theorem bucket_handle_state_machine_witness :
    removeBucket (openWith false [("ab", nodeC.put goodNode)]) =
      .ret (none, { pks := some { db := [], bucket := none }, Unittest := false }) ∧
    GetNodeInfo toyExt (openWith false [("ab", nodeC.put goodNode)]) "ab" =
      .ret (some goodNode, none) ∧
    GetNodeInfo toyExt { pks := some { db := [], bucket := none }, Unittest := false } "ab" =
      .ret (none, some .ErrBucketNotInitialized) ∧
    SetNode toyExt { pks := some { db := [], bucket := none }, Unittest := false }
        (some goodNode) =
      .ret (some .ErrBucketNotInitialized,
        { pks := some { db := [], bucket := none }, Unittest := false }) ∧
    runOps toyExt { pks := some { db := [], bucket := none }, Unittest := false }
        [.SetNode (some goodNode), .DelNode "ab", .SetPublicKey "zz" goodNode.Nonce none] =
      .ret { pks := some { db := [], bucket := none }, Unittest := false } ∧
    ResetBucket { pks := some { db := [], bucket := none }, Unittest := false } =
      .ret (none, openEmpty false) ∧
    SetNode toyExt (openEmpty false) (some goodNode) =
      .ret (none, openWith false [("ab", nodeC.put goodNode)]) ∧
    ∃ w3 : World,
      runOps toyExt (openEmpty false) [.SetNode (some goodNode), .ResetBucket] = .ret w3 ∧
      (∀ id : NodeID, ∃ node e, GetNodeInfo toyExt w3 id = .ret (node, e) ∧
        e ≠ some .ErrBucketNotInitialized) ∧
      (∃ ids, GetAllNodeID w3 = .ret (ids, none)) ∧
      (∀ id : NodeID, ∃ w4, DelNode w3 id = .ret (none, w4)) ∧
      (∀ nodeInfo : Option Node, ∃ e w4, SetNode toyExt w3 nodeInfo = .ret (e, w4) ∧
        e ≠ some .ErrBucketNotInitialized) :=
  ⟨by decide, by decide,
    (bucket_handle_state_machine toyExt (openWith false [("ab", nodeC.put goodNode)])
      { pks := some { db := [], bucket := none }, Unittest := false } (by decide)).2.1 "ab",
    (bucket_handle_state_machine toyExt (openWith false [("ab", nodeC.put goodNode)])
      { pks := some { db := [], bucket := none }, Unittest := false } (by decide)).2.2.2.2.1
      goodNode (nodeC.put goodNode) rfl
      (Or.inr ⟨PublicKey.mk 97, Hash.mk [97, 98], rfl, by decide, by decide⟩),
    (bucket_handle_state_machine toyExt (openWith false [("ab", nodeC.put goodNode)])
      { pks := some { db := [], bucket := none }, Unittest := false } (by decide)).1 _
      (by decide),
    by decide, by decide,
    (bucket_handle_state_machine toyExt (openWith false [("ab", nodeC.put goodNode)])
      { pks := some { db := [], bucket := none }, Unittest := false } (by decide)).2.2.2.2.2
      (openEmpty false) (by decide) _⟩

end ThunderDB
